import Mathlib

/-!
Verification of the statistical inference and signal-detection engine of the
Agentic-Turing-Machine semantic-drift repository.

Each Python function under scrutiny is shallow-embedded as a Lean definition:
pure numeric code on machine floats is modelled over `ℚ` (decision logic,
p-value corrections, percentile interpolation) or over `ℝ` (entropy and
mutual-information estimators, which involve `log`), fallible code returns
`Except`, and every use of a pseudo-random source is made explicit by passing
the stream of variates as an argument.  External numeric kernels (scipy's
`curve_fit`, `savgol_filter`, the TF-IDF vectorizer) are taken as function
parameters: the claims under study never depend on their values.
-/

namespace SpecProof

/-- Python exception kinds distinguished by the embedded code
(`src/src/errors.py` defines `AnalysisError`; `ValueError` and `IndexError`
are builtins). -/
inductive PyErr where
  | valueError (msg : String)
  | analysisError (msg : String)
  | indexError
deriving DecidableEq, Repr

/-! ## Stochastic resonance: decision logic
Embedding of `detect_stochastic_resonance` in `src/src/stochastic_resonance.py`. -/

/-- Helper scan for `argmaxIdx`: `i` is the index of the head of the remaining
list, `best` the first index attaining the running maximum `bestVal`. -/
def argmaxGo (i best : ℕ) (bestVal : ℚ) : List ℚ → ℕ
  | [] => best
  | x :: xs => if bestVal < x then argmaxGo (i+1) i x xs else argmaxGo (i+1) best bestVal xs

/-- Embedding of `np.argmax`: index of the first occurrence of the maximum
value of the list (0 for the empty list). -/
def argmaxIdx (l : List ℚ) : ℕ :=
  argmaxGo 0 0 (l.getD 0 0) l

/-- Resonance strength classification of `detect_stochastic_resonance`
(lines 324-332 of `stochastic_resonance.py`). -/
def resonanceStrength (gain : ℚ) : String :=
  if 3/2 < gain then "strong"
  else if 6/5 < gain then "moderate"
  else if 21/20 < gain then "weak"
  else "none"

/-- Decision fields of `StochasticResonanceResult` produced by
`detect_stochastic_resonance` (the perturbation-based confidence interval and
p-value consume ambient randomness and are modelled separately by
`perturbed_argmax_levels`). -/
structure SRDecision where
  sr_detected : Bool
  optimal_noise_level : ℚ
  snr_at_optimal : ℚ
  snr_at_zero : ℚ
  sr_gain : ℚ
  resonance_strength : String
deriving DecidableEq, Repr

/-- Core of `detect_stochastic_resonance` (lines 269-285 and 324-332): given
the noise levels and the SNR series computed for them, locate the argmax of
the SNR series, form `sr_gain = max_snr / snr_at_zero` (defaulting to 1 when
`snr_at_zero <= 0`), and declare resonance iff the optimal noise level is
positive and the gain exceeds 1. -/
def detectCore (noise_levels snr_values : List ℚ) : SRDecision :=
  let max_snr_idx := argmaxIdx snr_values
  let optimal_noise := noise_levels.getD max_snr_idx 0
  let max_snr := snr_values.getD max_snr_idx 0
  let snr_at_zero := snr_values.getD 0 0
  let sr_gain := if 0 < snr_at_zero then max_snr / snr_at_zero else 1
  { sr_detected := decide (0 < optimal_noise ∧ 1 < sr_gain)
    optimal_noise_level := optimal_noise
    snr_at_optimal := max_snr
    snr_at_zero := snr_at_zero
    sr_gain := sr_gain
    resonance_strength := resonanceStrength sr_gain }

/-- Sentinel result returned by `detect_stochastic_resonance` when fewer than
3 noise levels are available (lines 255-267). -/
def srSentinel : SRDecision :=
  { sr_detected := false
    optimal_noise_level := 0
    snr_at_optimal := 0
    snr_at_zero := 0
    sr_gain := 1
    resonance_strength := "none" }

/-- Embedding of `detect_stochastic_resonance`: `sims` is the
`text_similarities` mapping already sorted by noise level (the Python code
sorts the dict items by integer key); `snrOf noise sim` stands for
`calculate_snr(noise, sim, baseline)` producing the decibel SNR (its real
version is `calculate_snr`; the decision logic is independent of its values).
With fewer than 3 noise levels the sentinel is returned before any SNR is
computed. -/
def detect_stochastic_resonance (snrOf : ℚ → ℚ → ℚ) (sims : List (ℚ × ℚ)) :
    SRDecision :=
  if sims.length < 3 then srSentinel
  else
    let noise_levels := sims.map Prod.fst
    let snr_values := sims.map (fun p => snrOf p.1 p.2)
    detectCore noise_levels snr_values

/-- Embedding of `calculate_snr` (lines 180-217): decibel signal-to-noise
ratio `10*log10(signal_power / max(noise_power, 1e-10))` with
`signal_power = sim^2` and
`noise_power = (1-sim)^2 + (noise/100)^2 * 0.1`. -/
noncomputable def calculate_snr (noise_level similarity : ℝ) : ℝ :=
  let signal_power := similarity ^ 2
  let noise_power := (1 - similarity) ^ 2 + (noise_level / 100) ^ 2 * (1/10)
  10 * Real.logb 10 (signal_power / max noise_power (1e-10))

/-! ### Facts about `argmaxIdx` -/

theorem argmaxGo_of_le (i best : ℕ) (bestVal : ℚ) (xs : List ℚ)
    (h : ∀ x ∈ xs, x ≤ bestVal) : argmaxGo i best bestVal xs = best := by
  induction xs generalizing i with
  | nil => rfl
  | cons x xs ih =>
    have hx : ¬ bestVal < x := not_lt.mpr (h x (List.mem_cons_self x xs))
    simp only [argmaxGo, if_neg hx]
    exact ih (i+1) (fun y hy => h y (List.mem_cons_of_mem x hy))

theorem argmaxIdx_of_head_max (x : ℚ) (xs : List ℚ) (h : ∀ y ∈ xs, y ≤ x) :
    argmaxIdx (x :: xs) = 0 := by
  have hx : ¬ x < x := lt_irrefl x
  simp only [argmaxIdx, List.getD_cons_zero, argmaxGo, if_neg hx]
  exact argmaxGo_of_le 1 0 x xs h

/-- On a strictly decreasing SNR series the argmax is the first index, the
gain is exactly 1, and no resonance is declared. -/
theorem detectCore_of_sorted_gt (noise snr : List ℚ)
    (h : List.Sorted (· > ·) snr) : (detectCore noise snr).sr_detected = false := by
  simp only [detectCore, decide_eq_false_iff_not, not_and, not_lt]
  intro _
  cases snr with
  | nil => simp
  | cons x xs =>
    have hmax : argmaxIdx (x :: xs) = 0 :=
      argmaxIdx_of_head_max x xs (fun y hy => le_of_lt ((List.pairwise_cons.mp h).1 y hy))
    rw [hmax]
    simp only [List.getD_cons_zero]
    split_ifs with hz
    · rw [div_self (ne_of_gt hz)]
    · exact le_refl 1

/-- C1, counterexample.  On the series `noise = [0,10,20]`,
`snr = [5,8,10]` the code declares resonance although the argmax of the SNR
series is the *last* index, not an interior point: the claim's
"only when the argmax is an interior point" is not what the code tests
(`sr_detected = optimal_noise > 0 and sr_gain > 1.0` at line 285 of
`stochastic_resonance.py`; the interior-max check at line 297 only gates the
confidence interval and p-value). -/
theorem C1_counterexample :
    (detectCore [0, 10, 20] [5, 8, 10]).sr_detected = true ∧
      argmaxIdx [5, 8, 10] = ([5, 8, 10] : List ℚ).length - 1 := by
  norm_num [detectCore, argmaxIdx, argmaxGo]

/-- C1, amended.  `detect_stochastic_resonance` declares resonance exactly
when the noise level at the argmax of the SNR series is positive and the
maximum SNR exceeds a positive zero-noise SNR (`sr_gain > 1`, with the gain
forced to 1 when the zero-noise SNR is not positive); the argmax need not be
interior.  In particular, for `noise=[0,10,20,30]`, `snr=[5,8,10,6]` it
reports `sr_detected=True` with `optimal_noise_level=20`, and on every
strictly monotonically decreasing SNR series it reports
`sr_detected=False`. -/
theorem C1_amended :
    (∀ noise snr : List ℚ,
      ((detectCore noise snr).sr_detected = true ↔
        0 < noise.getD (argmaxIdx snr) 0 ∧ 0 < snr.getD 0 0 ∧
          snr.getD 0 0 < snr.getD (argmaxIdx snr) 0))
    ∧ ((detectCore [0, 10, 20, 30] [5, 8, 10, 6]).sr_detected = true
        ∧ (detectCore [0, 10, 20, 30] [5, 8, 10, 6]).optimal_noise_level = 20)
    ∧ (∀ noise snr : List ℚ, List.Sorted (· > ·) snr →
        (detectCore noise snr).sr_detected = false) := by
  refine ⟨?_, by norm_num [detectCore, argmaxIdx, argmaxGo], detectCore_of_sorted_gt⟩
  intro noise snr
  simp only [detectCore, decide_eq_true_eq]
  constructor
  · rintro ⟨h1, h2⟩
    refine ⟨h1, ?_⟩
    by_cases hz : 0 < snr.getD 0 0
    · rw [if_pos hz] at h2
      exact ⟨hz, (one_lt_div hz).mp h2⟩
    · rw [if_neg hz] at h2
      exact absurd h2 (lt_irrefl 1)
  · rintro ⟨h1, hz, hlt⟩
    exact ⟨h1, by rw [if_pos hz]; exact (one_lt_div hz).mpr hlt⟩

/-- C1, witness for the amended theorem: the characterization, evaluated on
the concrete resonant series, and the monotone-decreasing clause on the
concrete series `snr = [9,7,5]`. -/
theorem C1_amended_witness :
    ((detectCore [0, 10, 20, 30] [5, 8, 10, 6]).sr_detected = true ↔
      0 < ([0, 10, 20, 30] : List ℚ).getD (argmaxIdx [5, 8, 10, 6]) 0 ∧
        0 < ([5, 8, 10, 6] : List ℚ).getD 0 0 ∧
          ([5, 8, 10, 6] : List ℚ).getD 0 0 <
            ([5, 8, 10, 6] : List ℚ).getD (argmaxIdx [5, 8, 10, 6]) 0)
    ∧ (detectCore [0, 10, 20] [9, 7, 5]).sr_detected = false :=
  ⟨C1_amended.1 [0, 10, 20, 30] [5, 8, 10, 6],
    C1_amended.2.2 [0, 10, 20] [9, 7, 5] (by norm_num [List.sorted_cons])⟩

/-! ## SNR curve analysis and attention threshold model
Embedding of `analyze_snr_curve` and `model_attention_threshold` in
`src/src/stochastic_resonance.py`. -/

/-- Result container of `analyze_snr_curve` (`SNRCurveResult` dataclass). -/
structure SNRCurveResult where
  noise_levels : List ℚ
  snr_values : List ℚ
  snr_smoothed : List ℚ
  first_derivative : List ℚ
  second_derivative : List ℚ
  inflection_points : List ℚ
  curve_type : String
deriving Repr

/-- Inflection detection of `analyze_snr_curve` (lines 451-459): a sign change
of the second derivative between indices `i-1` and `i` yields a linearly
interpolated inflection point. -/
def inflectionPoints (noise dd : List ℚ) : List ℚ :=
  (List.range dd.length).filterMap (fun i =>
    if i = 0 then none
    else
      let a := dd.getD (i-1) 0
      let b := dd.getD i 0
      if a * b < 0 then
        some (noise.getD (i-1) 0 +
          (noise.getD i 0 - noise.getD (i-1) 0) * (-a / (b - a)))
      else none)

/-- Embedding of `analyze_snr_curve` (lines 403-480).  `snrOf` abstracts
`calculate_snr`, `savgol` the external `scipy.signal.savgol_filter` kernel
(only invoked with at least 5 points), and `gradient` the external
`np.gradient` finite-difference kernel.  On an empty `text_similarities`
mapping the access `similarities[0]` (line 427) raises an uncaught
`IndexError`: there is no minimum-data guard in this function. -/
def analyze_snr_curve (snrOf : ℚ → ℚ → ℚ) (savgol : List ℚ → List ℚ)
    (gradient : List ℚ → List ℚ → List ℚ) (sims : List (ℚ × ℚ)) :
    Except PyErr SNRCurveResult :=
  match sims with
  | [] => .error .indexError
  | _ :: _ =>
    let noise_levels := sims.map Prod.fst
    let snr_values := sims.map (fun p => snrOf p.1 p.2)
    let snr_smoothed := if 5 ≤ snr_values.length then savgol snr_values else snr_values
    let fd := if 2 ≤ snr_values.length then gradient snr_smoothed noise_levels
      else List.replicate snr_values.length 0
    let sd := if 3 ≤ snr_values.length then gradient fd noise_levels
      else List.replicate snr_values.length 0
    let max_idx := argmaxIdx snr_values
    .ok { noise_levels := noise_levels
          snr_values := snr_values
          snr_smoothed := snr_smoothed
          first_derivative := fd
          second_derivative := sd
          inflection_points := inflectionPoints noise_levels sd
          curve_type :=
            if 0 < max_idx ∧ max_idx < snr_values.length - 1 then "resonant"
            else if max_idx = 0 then "monotonic_decreasing"
            else "monotonic_increasing" }

/-- Result container of `model_attention_threshold` (`AttentionThresholdModel`
dataclass; the interpretation string is omitted). -/
structure AttentionThresholdModel where
  threshold_estimate : ℚ
  threshold_confidence : ℚ
  nonlinearity_strength : ℚ
  saturation_point : ℚ
  model_fit_r2 : ℚ
deriving DecidableEq, Repr

/-- Fallback parameters substituted by the `except Exception` branch of
`model_attention_threshold` (lines 558-565): `theta=25`, `beta=-0.05` (so
`nonlinearity=0.05`), `saturation=100`, `r2=0`, `confidence=0`. -/
def attentionFallback : AttentionThresholdModel :=
  { threshold_estimate := 25
    threshold_confidence := 0
    nonlinearity_strength := 1/20
    saturation_point := 100
    model_fit_r2 := 0 }

/-- Embedding of `model_attention_threshold` (lines 486-592).  The whole
sigmoid-fitting block is inside `try ... except Exception` (lines 518-565):
the initial guesses read `max(similarities)`/`min(similarities)`, which raise
`ValueError` on an empty list, and `scipy.optimize.curve_fit` may fail to
converge; either failure lands in the except-branch, which substitutes the
default parameters (`attentionFallback`) instead of re-raising.  `fitOutcome`
abstracts the external fit: `none` models any exception in the block. -/
def model_attention_threshold
    (fitOutcome : List (ℚ × ℚ) → Option AttentionThresholdModel)
    (sims : List (ℚ × ℚ)) : AttentionThresholdModel :=
  match (if sims.isEmpty then none else fitOutcome sims) with
  | some m => m
  | none => attentionFallback

/-- C10, counterexample.  On the empty `text_similarities` mapping
`model_attention_threshold` does not raise at all: every failure inside its
fitting block (including the `ValueError` from `max([])` in the initial
guesses) is caught by its `except Exception` handler, and the function
returns the fallback model with `R²=0`. -/
theorem C10_counterexample :
    model_attention_threshold (fun _ => none) [] = attentionFallback ∧
      attentionFallback.model_fit_r2 = 0 :=
  ⟨rfl, rfl⟩

/-- C10, amended.  On an experiment record whose `text_similarities` mapping
is empty, `analyze_snr_curve` raises an unhandled `IndexError` (accessing the
first similarity value with no minimum-data guard), `model_attention_threshold`
catches the failure internally and returns its fallback model (`R²=0`), and
`detect_stochastic_resonance` returns its sentinel result for fewer than 3
noise levels. -/
theorem C10_amended :
    (∀ (snrOf : ℚ → ℚ → ℚ) (savgol : List ℚ → List ℚ)
        (gradient : List ℚ → List ℚ → List ℚ),
      analyze_snr_curve snrOf savgol gradient [] = .error .indexError)
    ∧ (∀ fitOutcome, model_attention_threshold fitOutcome [] = attentionFallback)
    ∧ (∀ (snrOf : ℚ → ℚ → ℚ) (sims : List (ℚ × ℚ)), sims.length < 3 →
        detect_stochastic_resonance snrOf sims = srSentinel) := by
  refine ⟨fun _ _ _ => rfl, fun _ => rfl, fun snrOf sims h => ?_⟩
  simp [detect_stochastic_resonance, if_pos h]

/-- C10, witness for the amended theorem, instantiated on the empty mapping. -/
theorem C10_amended_witness :
    ([] : List (ℚ × ℚ)).length < 3 ∧
      detect_stochastic_resonance (fun _ s => s) [] = srSentinel :=
  ⟨by decide, C10_amended.2.2 (fun _ s => s) [] (by decide)⟩

/-! ## Report generation drivers (C9)
Embeddings of `generate_stochastic_resonance_report`
(`src/src/stochastic_resonance.py`, lines 598-663) and
`generate_information_theory_report` (`src/src/information_theory.py`,
lines 722-794). -/

/-- Value stored under a key of the stochastic-resonance report: the metadata
object, one of the three category payloads, or an error string. -/
inductive SRReportVal (A B C : Type) where
  | metadataVal
  | srVal (v : A)
  | curveVal (v : B)
  | thresholdVal (v : C)
  | errStr (e : String)

/-- Embedding of `generate_stochastic_resonance_report`: each of the three
analysis categories is computed inside its own `try/except`; a success stores
the category payload under its key, a failure stores the exception message
under the `*_error` key.  The function is total: it always produces (and the
Python code then always writes) the assembled report. -/
def generate_stochastic_resonance_report {A B C : Type}
    (sr : Except String A) (curve : Except String B) (thresh : Except String C) :
    List (String × SRReportVal A B C) :=
  [("metadata", .metadataVal)]
  ++ (match sr with
      | .ok v => [("stochastic_resonance", .srVal v)]
      | .error e => [("stochastic_resonance_error", .errStr e)])
  ++ (match curve with
      | .ok v => [("snr_curve", .curveVal v)]
      | .error e => [("snr_curve_error", .errStr e)])
  ++ (match thresh with
      | .ok v => [("attention_threshold", .thresholdVal v)]
      | .error e => [("attention_threshold_error", .errStr e)])

/-- Value stored under a key of the information-theory report.  The Python
code merges the sub-dictionaries of a successful noise analysis into the
report via `report.update(...)`; they are kept here as one payload entry,
which is immaterial to the error-isolation property under study. -/
inductive ITReportVal (D E : Type) where
  | metadataVal
  | noiseVal (v : D)
  | ibVal (v : E)
  | errStr (e : String)

/-- Embedding of `generate_information_theory_report`: the noise-level
analysis block and the information-bottleneck block each run inside their own
`try/except`, recording `noise_analysis_error` or
`information_bottleneck_error` on failure. -/
def generate_information_theory_report {D E : Type}
    (noiseAnalysis : Except String D) (ib : Except String E) :
    List (String × ITReportVal D E) :=
  [("metadata", .metadataVal)]
  ++ (match noiseAnalysis with
      | .ok v => [("noise_analysis", .noiseVal v)]
      | .error e => [("noise_analysis_error", .errStr e)])
  ++ (match ib with
      | .ok v => [("information_bottleneck", .ibVal v)]
      | .error e => [("information_bottleneck_error", .errStr e)])

/-- C9.  In both report drivers every analysis category is wrapped in its own
error handler: whatever combination of category outcomes occurs, the report
always contains the metadata object, the payload of every category that
succeeded, and a string-valued `*_error` field for every category that
failed — and the report is still produced (the drivers are total functions,
so the file write that follows always receives the assembled report). -/
theorem C9_report_isolation :
    (∀ (A B C : Type) (sr : Except String A) (curve : Except String B)
        (thresh : Except String C),
      ("metadata", SRReportVal.metadataVal) ∈
          generate_stochastic_resonance_report sr curve thresh
      ∧ (∀ v, sr = .ok v → ("stochastic_resonance", SRReportVal.srVal v) ∈
          generate_stochastic_resonance_report sr curve thresh)
      ∧ (∀ e, sr = .error e →
          ("stochastic_resonance_error", SRReportVal.errStr e) ∈
            generate_stochastic_resonance_report sr curve thresh)
      ∧ (∀ v, curve = .ok v → ("snr_curve", SRReportVal.curveVal v) ∈
          generate_stochastic_resonance_report sr curve thresh)
      ∧ (∀ e, curve = .error e → ("snr_curve_error", SRReportVal.errStr e) ∈
          generate_stochastic_resonance_report sr curve thresh)
      ∧ (∀ v, thresh = .ok v → ("attention_threshold", SRReportVal.thresholdVal v) ∈
          generate_stochastic_resonance_report sr curve thresh)
      ∧ (∀ e, thresh = .error e →
          ("attention_threshold_error", SRReportVal.errStr e) ∈
            generate_stochastic_resonance_report sr curve thresh))
    ∧ (∀ (D E : Type) (noiseAnalysis : Except String D) (ib : Except String E),
      ("metadata", ITReportVal.metadataVal) ∈
          generate_information_theory_report noiseAnalysis ib
      ∧ (∀ v, noiseAnalysis = .ok v → ("noise_analysis", ITReportVal.noiseVal v) ∈
          generate_information_theory_report noiseAnalysis ib)
      ∧ (∀ e, noiseAnalysis = .error e →
          ("noise_analysis_error", ITReportVal.errStr e) ∈
            generate_information_theory_report noiseAnalysis ib)
      ∧ (∀ v, ib = .ok v → ("information_bottleneck", ITReportVal.ibVal v) ∈
          generate_information_theory_report noiseAnalysis ib)
      ∧ (∀ e, ib = .error e →
          ("information_bottleneck_error", ITReportVal.errStr e) ∈
            generate_information_theory_report noiseAnalysis ib)) := by
  constructor
  · intro A B C sr curve thresh
    refine ⟨by simp [generate_stochastic_resonance_report], ?_, ?_, ?_, ?_, ?_, ?_⟩ <;>
        (intro x hx; subst hx) <;>
      simp [generate_stochastic_resonance_report]
  · intro D E noiseAnalysis ib
    refine ⟨by simp [generate_information_theory_report], ?_, ?_, ?_, ?_⟩ <;>
        (intro x hx; subst hx) <;>
      simp [generate_information_theory_report]

/-- C9, witness: one failing category (stochastic resonance) alongside two
successful ones; the error string appears in the report and the other
categories' payloads are untouched. -/
theorem C9_report_isolation_witness :
    ("stochastic_resonance_error", SRReportVal.errStr "SR detection failed") ∈
      @generate_stochastic_resonance_report SRDecision ℕ ℕ
        (.error "SR detection failed") (.ok 1) (.ok 2)
    ∧ ("snr_curve", SRReportVal.curveVal 1) ∈
      @generate_stochastic_resonance_report SRDecision ℕ ℕ
        (.error "SR detection failed") (.ok 1) (.ok 2) :=
  ⟨(C9_report_isolation.1 SRDecision ℕ ℕ
      (.error "SR detection failed") (.ok 1) (.ok 2)).2.2.1 "SR detection failed" rfl,
    (C9_report_isolation.1 SRDecision ℕ ℕ
      (.error "SR detection failed") (.ok 1) (.ok 2)).2.2.2.1 1 rfl⟩

/-! ## NaN/Infinity serialization (C2)
Embedding of `convert_numpy_types` (identical in `src/src/information_theory.py`
lines 49-65 and `src/src/stochastic_resonance.py` lines 59-75) and of the float
serialization behaviour of `json.dump(report, f, indent=2, allow_nan=True)`
(`information_theory.py` line 789, `stochastic_resonance.py` line 658). -/

/-- Value of an IEEE float as the serializer distinguishes it: a finite value
(kept as an exact rational) or one of the three non-finite values. -/
inductive PyFloat where
  | finite (q : ℚ)
  | nan
  | inf
  | ninf
deriving DecidableEq, Repr

/-- Python values occurring in an assembled report, distinguishing native
Python scalars from numpy scalars (the distinction `convert_numpy_types`
branches on via `isinstance`). -/
inductive PyVal where
  | pyFloat (f : PyFloat)
  | npFloat (f : PyFloat)
  | pyInt (n : ℤ)
  | npInt (n : ℤ)
  | pyBool (b : Bool)
  | npBool (b : Bool)
  | str (s : String)
  | none
  | list (items : List PyVal)
  | dict (entries : List (String × PyVal))

mutual

/-- Embedding of `convert_numpy_types`: recurses through dicts and lists,
converts numpy ints/bools to native ones, converts numpy floats to native
floats — mapping NaN and ±Infinity to `None` — and returns every *other*
value (in particular a native Python float, NaN or not) unchanged. -/
def convert_numpy_types : PyVal → PyVal
  | .dict es => .dict (convertEntries es)
  | .list xs => .list (convertList xs)
  | .npInt n => .pyInt n
  | .npFloat f =>
      match f with
      | .finite q => .pyFloat (.finite q)
      | _ => .none
  | .npBool b => .pyBool b
  | v => v

/-- Recursion of `convert_numpy_types` through a list value. -/
def convertList : List PyVal → List PyVal
  | [] => []
  | x :: xs => convert_numpy_types x :: convertList xs

/-- Recursion of `convert_numpy_types` through the entries of a dict value. -/
def convertEntries : List (String × PyVal) → List (String × PyVal)
  | [] => []
  | e :: es => (e.1, convert_numpy_types e.2) :: convertEntries es

end

/-- Token emitted by Python's `json` encoder for a float value.  With
`allow_nan=True` (the setting used by both report writers) the encoder emits
the literal tokens `NaN`, `Infinity` and `-Infinity` — which are not part of
strict (RFC 8259) JSON — instead of raising; with `allow_nan=False` it would
raise `ValueError` (`Option.none` here). -/
def serializeFloatToken (allowNan : Bool) : PyFloat → Option String
  | .finite q => some (toString q)
  | .nan => if allowNan then some "NaN" else Option.none
  | .inf => if allowNan then some "Infinity" else Option.none
  | .ninf => if allowNan then some "-Infinity" else Option.none

/-- Token emitted for an atomic report value (`None` serializes to `null`;
numpy float64 scalars are subclasses of `float` and serialize like native
floats). -/
def serializeAtomToken (allowNan : Bool) : PyVal → Option String
  | .pyFloat f => serializeFloatToken allowNan f
  | .npFloat f => serializeFloatToken allowNan f
  | .none => some "null"
  | .str s => some s
  | .pyBool b => some (if b then "true" else "false")
  | .npBool b => some (if b then "true" else "false")
  | .pyInt n => some (toString n)
  | .npInt n => some (toString n)
  | _ => Option.none

/-- C2, code bug.  A native Python float NaN inside a generated report — e.g.
the `correlation_noise_mi` summary field, which is `float(np.corrcoef(...))`
and becomes `nan` whenever the normalized-MI series is constant — passes
through `convert_numpy_types` unchanged (the sanitizer only inspects *numpy*
floating scalars), and `json.dump(..., allow_nan=True)` then writes the
literal token `NaN`, not `null`; strict-JSON reloading of such a report fails.
Only numpy floating NaN/Inf values are mapped to `null` as the claim
requires. -/
theorem C2_nan_serialization_bug :
    convert_numpy_types (.dict [("correlation_noise_mi", .pyFloat .nan)])
        = .dict [("correlation_noise_mi", .pyFloat .nan)]
    ∧ serializeAtomToken true (.pyFloat .nan) = some "NaN"
    ∧ serializeAtomToken true (.pyFloat .nan) ≠ some "null"
    ∧ convert_numpy_types (.npFloat .nan) = .none
    ∧ serializeAtomToken true (convert_numpy_types (.npFloat .nan)) = some "null" :=
  ⟨rfl, rfl, by decide, rfl, rfl⟩

/-! ## TF-IDF embedding entry point (C7)
Embedding of `get_local_embedding` in `src/src/analysis.py` (lines 49-97). -/

/-- Embedding of `get_local_embedding`.  `vectorize` abstracts the external
sklearn `TfidfVectorizer(max_features=1000, ngram_range=(1,3),
lowercase=True).fit_transform`; any exception it raises is re-raised as an
`AnalysisError` by the surrounding `try/except`.  The empty-input guard,
however, raises a `ValueError` (line 77: `raise ValueError("texts list cannot
be empty")`), exactly as the function's docstring documents. -/
def get_local_embedding (vectorize : List String → Except String (List (List ℚ)))
    (texts : List String) : Except PyErr (List (List ℚ)) :=
  if texts.isEmpty then .error (.valueError "texts list cannot be empty")
  else
    match vectorize texts with
    | .ok m => .ok m
    | .error _ => .error (.analysisError "TF-IDF embedding generation failed")

/-- C7, counterexample.  On the empty text list `get_local_embedding` fails
with a `ValueError`, not with an `AnalysisError` as the claim states (the
vectorizer shown never fails, so the only error path taken is the
empty-input guard). -/
theorem C7_counterexample :
    get_local_embedding (fun _ => .ok [[1]]) []
      = .error (.valueError "texts list cannot be empty") := rfl

/-- C7, amended.  The TF-IDF embedding operation fails with a `ValueError`
(message `"texts list cannot be empty"`) when the input sequence of texts is
empty, whatever the behaviour of the underlying vectorizer; `AnalysisError`
is reserved for failures of the vectorizer itself on non-empty input. -/
theorem C7_amended :
    (∀ vectorize, get_local_embedding vectorize []
        = .error (.valueError "texts list cannot be empty"))
    ∧ (∀ vectorize texts msg, texts ≠ [] → vectorize texts = .error msg →
        get_local_embedding vectorize texts
          = .error (.analysisError "TF-IDF embedding generation failed")) := by
  refine ⟨fun _ => rfl, fun vectorize texts msg hne hv => ?_⟩
  have : texts.isEmpty = false := by
    cases texts with
    | nil => exact absurd rfl hne
    | cons x xs => rfl
  simp [get_local_embedding, this, hv]

/-- C7, witness for the amended theorem at a concrete failing vectorizer. -/
theorem C7_amended_witness :
    (["hello"] : List String) ≠ [] ∧
      get_local_embedding (fun _ => .error "empty vocabulary") ["hello"]
        = .error (.analysisError "TF-IDF embedding generation failed") :=
  ⟨by decide, C7_amended.2 (fun _ => .error "empty vocabulary") ["hello"]
    "empty vocabulary" (by decide) rfl⟩

/-! ## Seeding of pseudo-random sources (C4)
The statistical engine draws pseudo-random numbers in four places:
`bootstrap_analysis` (`src/src/sensitivity_analysis.py` line 383) constructs
its own `np.random.RandomState(42)`; `pairwise_comparisons`
(`src/src/comparative_analysis.py` lines 184-185), `diagnostic_tests`
(line 657) and the 1000-iteration perturbation loop of
`detect_stochastic_resonance` (`src/src/stochastic_resonance.py` line 304)
call `np.random.normal` on the *global, never seeded* generator.  Ambient
global-generator state is modelled by passing the stream `z` of standard
normal variates it will produce; a seeded generator's stream is a function of
its seed alone. -/

/-- A draw from `np.random.normal(mu, sigma)` realized from the standard
normal variate `z` that the underlying generator produces. -/
def normal_draw (mu sigma z : ℚ) : ℚ := mu + sigma * z

/-- Synthetic-sample simulation of `pairwise_comparisons` (lines 183-185) and
`diagnostic_tests` (line 657): `n_sim = 30` draws from
`np.random.normal(val, abs(val) * 0.05)` taken from the ambient global
generator, here the variates `z k`, `z (k+1)`, .... -/
def simulate_samples (val : ℚ) (z : ℕ → ℚ) (start : ℕ) : List ℚ :=
  (List.range 30).map (fun k => normal_draw val (|val| * (5/100)) (z (start + k)))

/-- Arithmetic mean (`np.mean`): sum divided by length. -/
def npMean (l : List ℚ) : ℚ := l.sum / l.length

/-- Group summary statistics of one pairwise comparison
(`group1_mean`/`group2_mean`, lines 200-201): computed from the simulated
samples, hence from the ambient global-generator state at call time. -/
def pairwise_group_means (val1 val2 : ℚ) (z : ℕ → ℚ) : ℚ × ℚ :=
  (npMean (simulate_samples val1 z 0), npMean (simulate_samples val2 z 30))

/-- Perturbation loop of `detect_stochastic_resonance` (lines 300-306): 1000
iterations, each adding `np.random.normal(0, 0.1, len(snr))` from the global
generator to the SNR curve and recording the noise level at the perturbed
argmax; the 2.5/97.5 percentiles of these levels form the confidence
interval. -/
def perturbed_argmax_levels (noise snr : List ℚ) (z : ℕ → ℚ) : List ℚ :=
  (List.range 1000).map (fun it =>
    noise.getD (argmaxIdx (snr.enum.map
      (fun q => q.2 + normal_draw 0 (1/10) (z (it * snr.length + q.1))))) 0)

/-- Helper: 30 constant-variate draws give 30 identical samples. -/
theorem simulate_samples_const (val c : ℚ) (s : ℕ) :
    simulate_samples val (fun _ => c) s
      = List.replicate 30 (val + |val| * (5/100) * c) := by
  simp only [simulate_samples, normal_draw]
  rw [List.map_const']
  simp

/-- Helper: mean of a constant list. -/
theorem npMean_replicate (n : ℕ) (x : ℚ) (hn : n ≠ 0) :
    npMean (List.replicate n x) = x := by
  have hn' : (n : ℚ) ≠ 0 := Nat.cast_ne_zero.mpr hn
  simp only [npMean, List.sum_replicate, List.length_replicate, nsmul_eq_mul]
  exact mul_div_cancel_left₀ x hn'

/-- Helper: first element of a map over `List.range`. -/
theorem getD_zero_map_range (f : ℕ → ℚ) (n : ℕ) (hn : 0 < n) :
    ((List.range n).map f).getD 0 0 = f 0 := by
  rw [List.getD_eq_getElem _ _ (by simpa using hn)]
  simp

/-- The pairwise-comparison sample simulation depends on the ambient state of
the unseeded global generator. -/
theorem unseeded_pairwise_dependent :
    pairwise_group_means 1 2 (fun _ => 0) ≠ pairwise_group_means 1 2 (fun _ => 1) := by
  have e0 : pairwise_group_means 1 2 (fun _ => 0) = (1, 2) := by
    simp only [pairwise_group_means, simulate_samples_const, npMean_replicate 30 _
      (by norm_num)]
    norm_num
  have e1 : (pairwise_group_means 1 2 (fun _ => 1)).1 = 21/20 := by
    simp only [pairwise_group_means, simulate_samples_const, npMean_replicate 30 _
      (by norm_num)]
    norm_num
  intro h
  rw [e0] at h
  have h2 : ((1:ℚ), (2:ℚ)).1 = (pairwise_group_means 1 2 (fun _ => 1)).1 :=
    congrArg Prod.fst h
  rw [e1] at h2
  norm_num at h2

/-- The resonance perturbation loop depends on the ambient state of the
unseeded global generator. -/
theorem unseeded_perturbation_dependent :
    perturbed_argmax_levels [0, 10, 20] [1, 2, 3] (fun _ => 0)
      ≠ perturbed_argmax_levels [0, 10, 20] [1, 2, 3]
          (fun k => if k = 0 then 30 else 0) := by
  have h0 : (perturbed_argmax_levels [0, 10, 20] [1, 2, 3] (fun _ => 0)).getD 0 0
      = 20 := by
    rw [perturbed_argmax_levels, getD_zero_map_range _ 1000 (by norm_num)]
    norm_num [List.enum, List.enumFrom, normal_draw, argmaxIdx, argmaxGo]
  have h1 : (perturbed_argmax_levels [0, 10, 20] [1, 2, 3]
        (fun k => if k = 0 then 30 else 0)).getD 0 0 = 0 := by
    rw [perturbed_argmax_levels, getD_zero_map_range _ 1000 (by norm_num)]
    norm_num [List.enum, List.enumFrom, normal_draw, argmaxIdx, argmaxGo]
  intro h
  rw [h, h1] at h0
  norm_num at h0

/-- C4, counterexample.  The synthetic-sample simulation of
`pairwise_comparisons` and the 1000-iteration perturbation loop of
`detect_stochastic_resonance` read the unseeded global generator: two runs
over the same input (`val1=1, val2=2`, resp. `noise=[0,10,20]`,
`snr=[1,2,3]`) under different ambient generator states produce different
outputs, so these pseudo-random sources are not seeded with a fixed seed and
repeated runs need not coincide. -/
theorem C4_counterexample :
    pairwise_group_means 1 2 (fun _ => 0) ≠ pairwise_group_means 1 2 (fun _ => 1)
    ∧ perturbed_argmax_levels [0, 10, 20] [1, 2, 3] (fun _ => 0)
        ≠ perturbed_argmax_levels [0, 10, 20] [1, 2, 3]
            (fun k => if k = 0 then 30 else 0) :=
  ⟨unseeded_pairwise_dependent, unseeded_perturbation_dependent⟩

/-! ## Bootstrap analysis (C8)
Embedding of `bootstrap_analysis` in `src/src/sensitivity_analysis.py`
(lines 338-418) together with a model of `np.percentile` (linear
interpolation between order statistics). -/

/-- Sorting step of `np.percentile` (ascending). -/
def npSort (l : List ℚ) : List ℚ := List.insertionSort (· ≤ ·) l

/-- Linear interpolation of `np.percentile` at virtual index `h`
(`0 ≤ h ≤ n-1`): between the order statistics at `⌊h⌋` and `⌊h⌋+1` (the
latter clamped to the last index). -/
def interpAt (a : List ℚ) (h : ℚ) : ℚ :=
  let i := ⌊h⌋₊
  let j := min (i + 1) (a.length - 1)
  a.getD i 0 + (h - i) * (a.getD j 0 - a.getD i 0)

/-- Embedding of `np.percentile(l, q)` (linear method, the default): sort and
interpolate at virtual index `q/100 * (n-1)`. -/
def npPercentile (l : List ℚ) (q : ℚ) : ℚ :=
  interpAt (npSort l) (q / 100 * ((l.length - 1 : ℕ) : ℚ))

/-- Elements of a `(· ≤ ·)`-sorted rational list are monotone in the index. -/
theorem sorted_getD_mono (l : List ℚ) (hl : List.Sorted (· ≤ ·) l) {i j : ℕ}
    (hij : i ≤ j) (hj : j < l.length) : l.getD i 0 ≤ l.getD j 0 := by
  rcases eq_or_lt_of_le hij with rfl | hlt
  · exact le_refl _
  · rw [List.getD_eq_getElem _ _ (lt_trans hlt hj), List.getD_eq_getElem _ _ hj]
    exact List.pairwise_iff_get.mp hl ⟨i, lt_trans hlt hj⟩ ⟨j, hj⟩ hlt

/-- The interpolated value lies between the two bracketing order
statistics. -/
theorem interpAt_bounds (a : List ℚ) (ha : List.Sorted (· ≤ ·) a) (h : ℚ)
    (h0 : 0 ≤ h) (hn : h ≤ ((a.length - 1 : ℕ) : ℚ)) (hne : a ≠ []) :
    a.getD ⌊h⌋₊ 0 ≤ interpAt a h ∧
      interpAt a h ≤ a.getD (min (⌊h⌋₊ + 1) (a.length - 1)) 0 := by
  have hlen : 0 < a.length := List.length_pos.mpr hne
  have hfl : (⌊h⌋₊ : ℚ) ≤ h := Nat.floor_le h0
  have hfl1 : h < ⌊h⌋₊ + 1 := Nat.lt_floor_add_one h
  have hile : ⌊h⌋₊ ≤ a.length - 1 := by
    have := Nat.floor_mono hn
    simpa using this
  have hjlt : min (⌊h⌋₊ + 1) (a.length - 1) < a.length :=
    lt_of_le_of_lt (min_le_right _ _) (Nat.sub_lt hlen one_pos)
  have hij : ⌊h⌋₊ ≤ min (⌊h⌋₊ + 1) (a.length - 1) :=
    le_min (Nat.le_succ _) hile
  have hxy : a.getD ⌊h⌋₊ 0 ≤ a.getD (min (⌊h⌋₊ + 1) (a.length - 1)) 0 :=
    sorted_getD_mono a ha hij hjlt
  constructor
  · have : 0 ≤ (h - ⌊h⌋₊) * (a.getD (min (⌊h⌋₊ + 1) (a.length - 1)) 0 - a.getD ⌊h⌋₊ 0) :=
      mul_nonneg (by linarith) (by linarith)
    simp only [interpAt]
    linarith
  · simp only [interpAt]
    nlinarith [hxy, hfl, hfl1]

/-- Monotonicity of the interpolation in the virtual index, over a sorted
list. -/
theorem interpAt_mono (a : List ℚ) (ha : List.Sorted (· ≤ ·) a) (hne : a ≠ [])
    {h1 h2 : ℚ} (h10 : 0 ≤ h1) (h12 : h1 ≤ h2)
    (h2n : h2 ≤ ((a.length - 1 : ℕ) : ℚ)) : interpAt a h1 ≤ interpAt a h2 := by
  have h20 : 0 ≤ h2 := le_trans h10 h12
  have h1n : h1 ≤ ((a.length - 1 : ℕ) : ℚ) := le_trans h12 h2n
  have hlen : 0 < a.length := List.length_pos.mpr hne
  have hfloor : ⌊h1⌋₊ ≤ ⌊h2⌋₊ := Nat.floor_mono h12
  rcases eq_or_lt_of_le hfloor with heq | hlt
  · -- same bracketing cell: the difference is (h1 - h2) * (x_j - x_i) ≤ 0
    have hile : ⌊h1⌋₊ ≤ a.length - 1 := by
      have := Nat.floor_mono h1n
      simpa using this
    have hjlt : min (⌊h1⌋₊ + 1) (a.length - 1) < a.length :=
      lt_of_le_of_lt (min_le_right _ _) (Nat.sub_lt hlen one_pos)
    have hxy : a.getD ⌊h1⌋₊ 0 ≤ a.getD (min (⌊h1⌋₊ + 1) (a.length - 1)) 0 :=
      sorted_getD_mono a ha (le_min (Nat.le_succ _) hile) hjlt
    simp only [interpAt, ← heq]
    nlinarith [hxy]
  · -- different cells: go through the shared order statistics
    have hb1 := interpAt_bounds a ha h1 h10 h1n hne
    have hb2 := interpAt_bounds a ha h2 h20 h2n hne
    have hi2le : ⌊h2⌋₊ ≤ a.length - 1 := by
      have := Nat.floor_mono h2n
      simpa using this
    have hi2lt : ⌊h2⌋₊ < a.length := lt_of_le_of_lt hi2le (Nat.sub_lt hlen one_pos)
    have hmid : a.getD (min (⌊h1⌋₊ + 1) (a.length - 1)) 0 ≤ a.getD ⌊h2⌋₊ 0 :=
      sorted_getD_mono a ha (le_trans (min_le_left _ _) hlt) hi2lt
    exact le_trans hb1.2 (le_trans hmid hb2.1)

/-- Monotonicity of `np.percentile` in the percentile rank. -/
theorem npPercentile_mono (l : List ℚ) (hne : l ≠ []) {q1 q2 : ℚ}
    (hq0 : 0 ≤ q1) (hq : q1 ≤ q2) (hq100 : q2 ≤ 100) :
    npPercentile l q1 ≤ npPercentile l q2 := by
  have hperm := List.perm_insertionSort (α := ℚ) (· ≤ ·) l
  have hlen : (npSort l).length = l.length := hperm.length_eq
  have hsne : npSort l ≠ [] := by
    intro h
    apply hne
    have := hlen
    rw [h] at this
    exact List.length_eq_zero.mp this.symm
  have hsorted : List.Sorted (· ≤ ·) (npSort l) :=
    List.sorted_insertionSort (· ≤ ·) l
  have hc : (0:ℚ) ≤ ((l.length - 1 : ℕ) : ℚ) := Nat.cast_nonneg _
  simp only [npPercentile]
  apply interpAt_mono (npSort l) hsorted hsne
  · exact mul_nonneg (by linarith [div_nonneg hq0 (by norm_num : (0:ℚ) ≤ 100)]) hc
  · have h12 : q1 / 100 ≤ q2 / 100 := by linarith
    exact mul_le_mul_of_nonneg_right h12 hc
  · rw [hlen]
    have : q2 / 100 ≤ 1 := by linarith
    nlinarith [hc]

/-- Result container of `bootstrap_analysis` (`BootstrapResult` dataclass).
The Python `bootstrap_std` field is the square root of the `ddof=1` variance
of the resampled means; the (rational) variance is stored instead so the
structure stays computable — no claim concerns that field. -/
structure BootstrapResult where
  metric_name : String
  observed_value : ℚ
  bootstrap_mean : ℚ
  bootstrap_var : ℚ
  ci_lower : ℚ
  ci_upper : ℚ
  bias : ℚ
  n_iterations : ℕ
deriving Repr

/-- Variance with `ddof=1` denominator, as squared by `np.std(x, ddof=1)`. -/
def sampleVar (l : List ℚ) : ℚ :=
  (l.map (fun x => (x - npMean l) ^ 2)).sum / ((l.length - 1 : ℕ) : ℚ)

/-- Embedding of `bootstrap_analysis`: fewer than 2 samples raise
`AnalysisError("Insufficient data for bootstrap analysis")` (line 376);
otherwise the seeded generator (`np.random.RandomState(42)`, line 383) yields
`draws` — for each iteration a list of indices into `samples`, resampling with
replacement at the input's size —, each resample's mean is collected, and the
result carries `bias = bootstrap_mean - observed_value` and the percentile
confidence interval `[100*α/2, 100*(1-α/2)]` of the resampled means. -/
def bootstrap_analysis (samples : List ℚ) (draws : List (List ℕ))
    (confidence : ℚ) : Except String BootstrapResult :=
  if samples.length < 2 then .error "Insufficient data for bootstrap analysis"
  else
    let observed_value := npMean samples
    let bootstrap_means := draws.map (fun d => npMean (d.map (fun i => samples.getD i 0)))
    let bootstrap_mean := npMean bootstrap_means
    let alpha := 1 - confidence
    .ok { metric_name := "cosine_distance"
          observed_value := observed_value
          bootstrap_mean := bootstrap_mean
          bootstrap_var := sampleVar bootstrap_means
          ci_lower := npPercentile bootstrap_means (100 * alpha / 2)
          ci_upper := npPercentile bootstrap_means (100 * (1 - alpha / 2))
          bias := bootstrap_mean - observed_value
          n_iterations := draws.length }

/-- C8.  `bootstrap_analysis` fails with
`AnalysisError("Insufficient data for bootstrap analysis")` on fewer than 2
samples; otherwise (for any resampling draws — the code's are produced by the
fixed-seed `RandomState(42)` — at least one iteration, and a confidence level
in `[0,1]`) it succeeds with `bias = bootstrap_mean - observed_value`,
`observed_value` the input mean, and a percentile confidence interval whose
lower bound (the `α/2` quantile of the resampled means) does not exceed its
upper bound (the `1-α/2` quantile). -/
theorem C8_bootstrap :
    (∀ (samples : List ℚ) (draws : List (List ℕ)) (confidence : ℚ),
      samples.length < 2 →
        bootstrap_analysis samples draws confidence
          = .error "Insufficient data for bootstrap analysis")
    ∧ (∀ (samples : List ℚ) (draws : List (List ℕ)) (confidence : ℚ),
        2 ≤ samples.length → draws ≠ [] → 0 ≤ confidence → confidence ≤ 1 →
      ∃ r, bootstrap_analysis samples draws confidence = .ok r
        ∧ r.bias = r.bootstrap_mean - r.observed_value
        ∧ r.observed_value = npMean samples
        ∧ r.ci_lower ≤ r.ci_upper) := by
  constructor
  · intro samples draws confidence hlt
    simp [bootstrap_analysis, if_pos hlt]
  · intro samples draws confidence hlen hdr hc0 hc1
    have hnotlt : ¬ samples.length < 2 := not_lt.mpr hlen
    simp only [bootstrap_analysis, if_neg hnotlt]
    refine ⟨_, rfl, rfl, rfl, ?_⟩
    have hne : draws.map (fun d => npMean (d.map (fun i => samples.getD i 0))) ≠ [] := by
      simpa using hdr
    exact npPercentile_mono _ hne (by linarith) (by linarith) (by linarith)

/-- C8, witness: two samples, two resampling draws, 95% confidence. -/
theorem C8_bootstrap_witness :
    2 ≤ ([1, 2] : List ℚ).length ∧ ([[0, 1], [1, 1]] : List (List ℕ)) ≠ [] ∧
      ∃ r, bootstrap_analysis [1, 2] [[0, 1], [1, 1]] (19/20) = .ok r
        ∧ r.bias = r.bootstrap_mean - r.observed_value
        ∧ r.observed_value = npMean [1, 2]
        ∧ r.ci_lower ≤ r.ci_upper :=
  ⟨by decide, by decide,
    C8_bootstrap.2 [1, 2] [[0, 1], [1, 1]] (19/20) (by decide) (by decide)
      (by norm_num) (by norm_num)⟩

/-- Modelled stand-in for the fixed-seed `np.random.RandomState(42)` index
stream consumed by `rng.choice(samples, size=len(samples))`: a deterministic
function of the seed alone (the concrete linear-congruential stream is
immaterial — only its independence from ambient state matters). -/
def seededIndexDraws (seed n_iterations size : ℕ) : List (List ℕ) :=
  (List.range n_iterations).map (fun it =>
    (List.range size).map (fun k =>
      (1103515245 * (seed + it * size + k) + 12345) % size))

/-- A full run of `bootstrap_analysis` as invoked by the program: the
resampling draws come from the run's own `RandomState(42)`, not from the
ambient global generator `ambientZ` (which the function never touches). -/
def bootstrap_run (samples : List ℚ) (n_iterations : ℕ) (confidence : ℚ)
    (ambientZ : ℕ → ℚ) : Except String BootstrapResult :=
  bootstrap_analysis samples (seededIndexDraws 42 n_iterations samples.length)
    confidence

/-- C4, amended.  Of the engine's pseudo-random sources only the bootstrap
resampling is seeded (`np.random.RandomState(42)`): a bootstrap run is
independent of the ambient global-generator state, so two repeated runs on
the same input produce identical output; the synthetic-sample simulation of
`pairwise_comparisons`/`diagnostic_tests` and the perturbation loop of
`detect_stochastic_resonance` instead read the unseeded global generator, and
runs under different ambient states can differ. -/
theorem C4_amended :
    (∀ (samples : List ℚ) (n_iterations : ℕ) (confidence : ℚ) (z1 z2 : ℕ → ℚ),
      bootstrap_run samples n_iterations confidence z1
        = bootstrap_run samples n_iterations confidence z2)
    ∧ (∃ z1 z2 : ℕ → ℚ,
        pairwise_group_means 1 2 z1 ≠ pairwise_group_means 1 2 z2)
    ∧ (∃ z1 z2 : ℕ → ℚ,
        perturbed_argmax_levels [0, 10, 20] [1, 2, 3] z1
          ≠ perturbed_argmax_levels [0, 10, 20] [1, 2, 3] z2) :=
  ⟨fun _ _ _ _ _ => rfl,
    ⟨fun _ => 0, fun _ => 1, unseeded_pairwise_dependent⟩,
    ⟨fun _ => 0, fun k => if k = 0 then 30 else 0, unseeded_perturbation_dependent⟩⟩

/-! ## Multiple-comparison correction (C5)
Embedding of `_apply_correction` in `src/src/comparative_analysis.py`
(lines 297-363). -/

/-- Embedding of `np.argsort` over the p-value list: the list of indices
`0..m-1` sorted by their p-value (a stable sort; every property proved below
holds for any argsort, i.e. any sorting permutation). -/
def argsortIdx (ps : List ℚ) : List ℕ :=
  List.insertionSort (fun i j => ps.getD i 0 ≤ ps.getD j 0) (List.range ps.length)

/-- The p-values in ascending order (`sorted_p = p_array[sorted_indices]`). -/
def sortedP (ps : List ℚ) : List ℚ :=
  (argsortIdx ps).map (fun i => ps.getD i 0)

/-- Bonferroni branch (line 322): `min(p * m, 1)` elementwise. -/
def bonferroni (ps : List ℚ) : List ℚ :=
  ps.map (fun p => min (p * (ps.length : ℚ)) 1)

/-- Holm scaling step (lines 329-331): the `i`-th sorted p-value is multiplied
by `m - i` and capped at 1. -/
def holmScaled (m : ℕ) (sorted : List ℚ) : List ℚ :=
  sorted.enum.map (fun q => min (q.2 * ((m - q.1 : ℕ) : ℚ)) 1)

/-- Forward monotonicity enforcement of the Holm branch (lines 334-335):
running maximum continuing from `acc`. -/
def cummaxFrom (acc : ℚ) : List ℚ → List ℚ
  | [] => []
  | x :: xs => max acc x :: cummaxFrom (max acc x) xs

/-- Running maximum (`corrected[i] = max(corrected[i], corrected[i-1])` for
`i = 1..m-1`). -/
def cummax : List ℚ → List ℚ
  | [] => []
  | x :: xs => x :: cummaxFrom x xs

/-- Backward monotonicity enforcement of the FDR branch (lines 350-351):
`corrected[i] = min(corrected[i], corrected[i+1])` scanning from the end,
i.e. suffix minima. -/
def suffMin : List ℚ → List ℚ
  | [] => []
  | x :: xs =>
    match suffMin xs with
    | [] => [x]
    | y :: ys => min x y :: y :: ys

/-- Benjamini-Hochberg scaling step (lines 346-347): the `i`-th sorted
p-value is multiplied by `m / (i+1)` and capped at 1. -/
def fdrScaled (m : ℕ) (sorted : List ℚ) : List ℚ :=
  sorted.enum.map (fun q => min (q.2 * (m : ℚ) / ((q.1 + 1 : ℕ) : ℚ)) 1)

/-- Unsorting (`corrected[sorted_indices] = corrected_sorted`, lines 338-339
and 354-355): position `perm[i]` of the result receives element `i` of the
corrected sorted list. -/
def unsortBy (perm : List ℕ) (cs : List ℚ) : List ℚ :=
  (List.range perm.length).map (fun j => cs.getD (perm.indexOf j) 0)

/-- Holm branch of `_apply_correction`. -/
def holm_correction (ps : List ℚ) : List ℚ :=
  unsortBy (argsortIdx ps) (cummax (holmScaled ps.length (sortedP ps)))

/-- Benjamini-Hochberg FDR branch of `_apply_correction`. -/
def fdr_bh_correction (ps : List ℚ) : List ℚ :=
  unsortBy (argsortIdx ps) (suffMin (fdrScaled ps.length (sortedP ps)))

/-- Embedding of `_apply_correction`: dispatch on the method name; an unknown
method raises `ValueError` (line 361), modelled as `Option.none`. -/
def apply_correction (ps : List ℚ) (method : String) : Option (List ℚ) :=
  if method = "bonferroni" then some (bonferroni ps)
  else if method = "holm" then some (holm_correction ps)
  else if method = "fdr_bh" then some (fdr_bh_correction ps)
  else if method = "none" then some ps
  else Option.none

/-! ### List lemmas for the correction proofs -/

theorem getD_map_range (f : ℕ → ℚ) {n i : ℕ} (h : i < n) :
    ((List.range n).map f).getD i 0 = f i := by
  rw [List.getD_eq_getElem _ _ (by simpa using h)]
  simp

theorem enum_map_getD (f : ℕ × ℚ → ℚ) (l : List ℚ) {i : ℕ} (h : i < l.length) :
    (l.enum.map f).getD i 0 = f (i, l.getD i 0) := by
  have h' : i < (l.enum.map f).length := by simpa using h
  rw [List.getD_eq_getElem _ _ h', List.getD_eq_getElem _ _ h]
  simp

theorem cummaxFrom_length (acc : ℚ) (l : List ℚ) :
    (cummaxFrom acc l).length = l.length := by
  induction l generalizing acc with
  | nil => rfl
  | cons x xs ih => simp [cummaxFrom, ih]

theorem cummax_length (l : List ℚ) : (cummax l).length = l.length := by
  cases l with
  | nil => rfl
  | cons x xs => simp [cummax, cummaxFrom_length]

theorem le_cummaxFrom_getD (l : List ℚ) :
    ∀ (acc : ℚ) (i : ℕ), i < l.length → l.getD i 0 ≤ (cummaxFrom acc l).getD i 0 := by
  induction l with
  | nil => intro acc i h; simp at h
  | cons x xs ih =>
    intro acc i h
    cases i with
    | zero => simp [cummaxFrom, le_max_right]
    | succ i =>
      simp only [cummaxFrom, List.getD_cons_succ]
      exact ih (max acc x) i (by simpa using h)

theorem le_cummax_getD (l : List ℚ) {i : ℕ} (h : i < l.length) :
    l.getD i 0 ≤ (cummax l).getD i 0 := by
  cases l with
  | nil => simp at h
  | cons x xs =>
    cases i with
    | zero => simp [cummax]
    | succ i =>
      simp only [cummax, List.getD_cons_succ]
      exact le_cummaxFrom_getD xs x i (by simpa using h)

theorem cummaxFrom_getD_le (l : List ℚ) (b : ℚ) :
    ∀ (acc : ℚ), acc ≤ b → (∀ x ∈ l, x ≤ b) → ∀ i < l.length,
      (cummaxFrom acc l).getD i 0 ≤ b := by
  induction l with
  | nil => intro acc _ _ i h; simp at h
  | cons x xs ih =>
    intro acc hacc hall i h
    have hx : x ≤ b := hall x (List.mem_cons_self x xs)
    cases i with
    | zero => simpa [cummaxFrom] using max_le hacc hx
    | succ i =>
      simp only [cummaxFrom, List.getD_cons_succ]
      exact ih (max acc x) (max_le hacc hx)
        (fun y hy => hall y (List.mem_cons_of_mem x hy)) i (by simpa using h)

theorem cummax_getD_le (l : List ℚ) (b : ℚ) (hall : ∀ x ∈ l, x ≤ b)
    {i : ℕ} (h : i < l.length) : (cummax l).getD i 0 ≤ b := by
  cases l with
  | nil => simp at h
  | cons x xs =>
    have hx : x ≤ b := hall x (List.mem_cons_self x xs)
    cases i with
    | zero => simpa [cummax] using hx
    | succ i =>
      simp only [cummax, List.getD_cons_succ]
      exact cummaxFrom_getD_le xs b x hx
        (fun y hy => hall y (List.mem_cons_of_mem x hy)) i (by simpa using h)

theorem suffMin_length (l : List ℚ) : (suffMin l).length = l.length := by
  induction l with
  | nil => rfl
  | cons x xs ih =>
    simp only [suffMin]
    cases hs : suffMin xs with
    | nil =>
      have : xs.length = 0 := by rw [← ih, hs]; rfl
      simp [this]
    | cons y ys =>
      have : ys.length + 1 = xs.length := by rw [← ih, hs]; rfl
      simp [← this]

theorem suffMin_getD_le (l : List ℚ) :
    ∀ i j : ℕ, i ≤ j → j < l.length → (suffMin l).getD i 0 ≤ l.getD j 0 := by
  induction l with
  | nil => intro i j _ h; simp at h
  | cons x xs ih =>
    intro i j hij hj
    simp only [suffMin]
    cases hs : suffMin xs with
    | nil =>
      have hxs : xs.length = 0 := by rw [← suffMin_length xs, hs]; rfl
      have hj0 : j = 0 := by
        simp only [List.length_cons, hxs] at hj
        omega
      have hi0 : i = 0 := Nat.le_zero.mp (hj0 ▸ hij)
      simp [hi0, hj0]
    | cons y ys =>
      have hy : y = (suffMin xs).getD 0 0 := by rw [hs]; rfl
      have hxs_pos : 0 < xs.length := by
        rw [← suffMin_length xs, hs]; simp
      cases i with
      | zero =>
        cases j with
        | zero => simpa using min_le_left x y
        | succ j =>
          have hjx : j < xs.length := by simpa using hj
          have h1 : y ≤ xs.getD j 0 := by
            rw [hy]; exact ih 0 j (Nat.zero_le j) hjx
          simp only [List.getD_cons_zero, List.getD_cons_succ]
          exact le_trans (min_le_right x y) h1
      | succ i =>
        cases j with
        | zero => omega
        | succ j =>
          have hjx : j < xs.length := by simpa using hj
          have h1 : (suffMin xs).getD i 0 ≤ xs.getD j 0 :=
            ih i j (Nat.succ_le_succ_iff.mp hij) hjx
          simp only [List.getD_cons_succ]
          rw [hs] at h1
          exact h1

theorem le_suffMin_getD (l : List ℚ) :
    ∀ (b : ℚ) (i : ℕ), (∀ j, i ≤ j → j < l.length → b ≤ l.getD j 0) →
      i < l.length → b ≤ (suffMin l).getD i 0 := by
  induction l with
  | nil => intro b i _ h; simp at h
  | cons x xs ih =>
    intro b i hall hi
    simp only [suffMin]
    cases hs : suffMin xs with
    | nil =>
      have hxs : xs.length = 0 := by rw [← suffMin_length xs, hs]; rfl
      have hi0 : i = 0 := by
        simp only [List.length_cons, hxs] at hi
        omega
      subst hi0
      simpa using hall 0 (le_refl 0) (by simp)
    | cons y ys =>
      have hxs_pos : 0 < xs.length := by
        rw [← suffMin_length xs, hs]; simp
      cases i with
      | zero =>
        have hx : b ≤ x := hall 0 (le_refl 0) (by simp)
        have hy : b ≤ y := by
          have := ih b 0 (fun j _ hj => by
            simpa using hall (j+1) (Nat.zero_le _) (by simpa using hj)) hxs_pos
          rw [hs] at this
          exact this
        simpa using le_min hx hy
      | succ i =>
        have hix : i < xs.length := by simpa using hi
        have := ih b i (fun j hij hj => by
          simpa using hall (j+1) (Nat.succ_le_succ hij) (by simpa using hj)) hix
        rw [hs] at this
        simp only [List.getD_cons_succ]
        exact this

/-! ### Permutation facts about the argsort -/

theorem argsortIdx_perm (ps : List ℚ) :
    List.Perm (argsortIdx ps) (List.range ps.length) :=
  List.perm_insertionSort _ _

theorem argsortIdx_length (ps : List ℚ) : (argsortIdx ps).length = ps.length := by
  rw [(argsortIdx_perm ps).length_eq, List.length_range]

theorem argsortIdx_nodup (ps : List ℚ) : (argsortIdx ps).Nodup :=
  ((argsortIdx_perm ps).nodup_iff).mpr (List.nodup_range _)

theorem argsortIdx_mem {ps : List ℚ} {j : ℕ} :
    j ∈ argsortIdx ps ↔ j < ps.length := by
  rw [(argsortIdx_perm ps).mem_iff, List.mem_range]

theorem argsortIdx_sorted (ps : List ℚ) :
    List.Sorted (fun i j => ps.getD i 0 ≤ ps.getD j 0) (argsortIdx ps) := by
  haveI : IsTotal ℕ (fun i j => ps.getD i 0 ≤ ps.getD j 0) :=
    ⟨fun a b => le_total _ _⟩
  haveI : IsTrans ℕ (fun i j => ps.getD i 0 ≤ ps.getD j 0) :=
    ⟨fun _ _ _ hab hbc => le_trans hab hbc⟩
  exact List.sorted_insertionSort _ _

theorem map_natGetD (f : ℕ → ℚ) (l : List ℕ) {i : ℕ} (h : i < l.length) :
    (l.map f).getD i 0 = f (l.getD i 0) := by
  rw [List.getD_eq_getElem _ _ (by simpa using h), List.getD_eq_getElem _ _ h]
  simp

theorem sortedP_length (ps : List ℚ) : (sortedP ps).length = ps.length := by
  simp [sortedP, argsortIdx_length]

theorem sortedP_sorted (ps : List ℚ) : List.Sorted (· ≤ ·) (sortedP ps) := by
  rw [sortedP, List.Sorted]
  exact List.pairwise_map.mpr (argsortIdx_sorted ps)

theorem sortedP_getD (ps : List ℚ) {i : ℕ} (h : i < ps.length) :
    (sortedP ps).getD i 0 = ps.getD ((argsortIdx ps).getD i 0) 0 :=
  map_natGetD _ _ (by rw [argsortIdx_length]; exact h)

theorem sortedP_mem_bounds (ps : List ℚ) (hps : ∀ p ∈ ps, 0 ≤ p ∧ p ≤ 1) :
    ∀ x ∈ sortedP ps, 0 ≤ x ∧ x ≤ 1 := by
  intro x hx
  rw [sortedP, List.mem_map] at hx
  obtain ⟨k, hk, rfl⟩ := hx
  have hklt : k < ps.length := argsortIdx_mem.mp hk
  have : ps.getD k 0 ∈ ps := by
    rw [List.getD_eq_getElem _ _ hklt]
    exact List.getElem_mem _
  exact hps _ this

theorem sortedP_getD_bounds (ps : List ℚ) (hps : ∀ p ∈ ps, 0 ≤ p ∧ p ≤ 1)
    {i : ℕ} (h : i < ps.length) :
    0 ≤ (sortedP ps).getD i 0 ∧ (sortedP ps).getD i 0 ≤ 1 := by
  have h' : i < (sortedP ps).length := by rw [sortedP_length]; exact h
  have : (sortedP ps).getD i 0 ∈ sortedP ps := by
    rw [List.getD_eq_getElem _ _ h']
    exact List.getElem_mem _
  exact sortedP_mem_bounds ps hps _ this

theorem unsortBy_getD (perm : List ℕ) (cs : List ℚ) (hnd : perm.Nodup)
    {idx : ℕ} (h : idx < perm.length) (hmem : perm.getD idx 0 < perm.length) :
    (unsortBy perm cs).getD (perm.getD idx 0) 0 = cs.getD idx 0 := by
  rw [unsortBy, getD_map_range _ hmem]
  congr 1
  rw [List.getD_eq_getElem _ _ h]
  exact List.indexOf_getElem hnd idx h

theorem argsortIdx_surj (ps : List ℚ) {j : ℕ} (hj : j < ps.length) :
    ∃ idx, idx < (argsortIdx ps).length ∧ (argsortIdx ps).getD idx 0 = j := by
  have hmem : j ∈ argsortIdx ps := argsortIdx_mem.mpr hj
  obtain ⟨i, hi, hget⟩ := List.getElem_of_mem hmem
  exact ⟨i, hi, by rw [List.getD_eq_getElem _ _ hi]; exact hget⟩

/-! ### Sorted-level correction inequalities -/

theorem holmScaled_length (m : ℕ) (l : List ℚ) :
    (holmScaled m l).length = l.length := by
  simp [holmScaled]

theorem fdrScaled_length (m : ℕ) (l : List ℚ) :
    (fdrScaled m l).length = l.length := by
  simp [fdrScaled]

theorem holm_sorted_ge (ps : List ℚ) (hps : ∀ p ∈ ps, 0 ≤ p ∧ p ≤ 1)
    {i : ℕ} (h : i < ps.length) :
    (sortedP ps).getD i 0
      ≤ (cummax (holmScaled ps.length (sortedP ps))).getD i 0 := by
  have hi' : i < (sortedP ps).length := by rw [sortedP_length]; exact h
  have hb := sortedP_getD_bounds ps hps h
  have hhs : (holmScaled ps.length (sortedP ps)).getD i 0
      = min ((sortedP ps).getD i 0 * ((ps.length - i : ℕ) : ℚ)) 1 :=
    enum_map_getD _ _ hi'
  have h1 : (sortedP ps).getD i 0 ≤ (holmScaled ps.length (sortedP ps)).getD i 0 := by
    rw [hhs]
    refine le_min ?_ hb.2
    calc (sortedP ps).getD i 0 = (sortedP ps).getD i 0 * 1 := (mul_one _).symm
    _ ≤ (sortedP ps).getD i 0 * ((ps.length - i : ℕ) : ℚ) := by
        refine mul_le_mul_of_nonneg_left ?_ hb.1
        have h2 : 1 ≤ ps.length - i := by omega
        exact_mod_cast h2
  refine le_trans h1 (le_cummax_getD _ ?_)
  rw [holmScaled_length, sortedP_length]
  exact h

theorem fdr_sorted_ge (ps : List ℚ) (hps : ∀ p ∈ ps, 0 ≤ p ∧ p ≤ 1)
    {i : ℕ} (h : i < ps.length) :
    (sortedP ps).getD i 0
      ≤ (suffMin (fdrScaled ps.length (sortedP ps))).getD i 0 := by
  have hspl : (sortedP ps).length = ps.length := sortedP_length ps
  have hb := sortedP_getD_bounds ps hps h
  refine le_suffMin_getD _ _ i ?_ ?_
  · intro j hij hjlen
    have hj' : j < (sortedP ps).length := by
      rw [fdrScaled_length] at hjlen
      exact hjlen
    have hjps : j < ps.length := by rw [← hspl]; exact hj'
    have hfj : (fdrScaled ps.length (sortedP ps)).getD j 0
        = min ((sortedP ps).getD j 0 * (ps.length : ℚ) / ((j + 1 : ℕ) : ℚ)) 1 :=
      enum_map_getD _ _ hj'
    rw [hfj]
    have hbj := sortedP_getD_bounds ps hps hjps
    refine le_min ?_ hb.2
    have hsp_ij : (sortedP ps).getD i 0 ≤ (sortedP ps).getD j 0 :=
      sorted_getD_mono _ (sortedP_sorted ps) hij hj'
    have hstep : (sortedP ps).getD j 0
        ≤ (sortedP ps).getD j 0 * (ps.length : ℚ) / ((j + 1 : ℕ) : ℚ) := by
      rw [le_div_iff₀ (by positivity)]
      have hm : ((j + 1 : ℕ) : ℚ) ≤ (ps.length : ℚ) := by
        exact_mod_cast Nat.succ_le_of_lt hjps
      exact mul_le_mul_of_nonneg_left hm hbj.1
    exact le_trans hsp_ij hstep
  · rw [fdrScaled_length, sortedP_length]
    exact h

/-- C5.  For every list of raw p-values in `[0,1]`, at every position the
Holm- and the Benjamini-Hochberg-corrected value is at least the raw value,
all three corrected lists are capped at 1, and the Bonferroni-corrected value
dominates the FDR-corrected value. -/
theorem C5_corrections (ps : List ℚ) (hps : ∀ p ∈ ps, 0 ≤ p ∧ p ≤ 1) :
    ∀ j < ps.length,
      ps.getD j 0 ≤ (holm_correction ps).getD j 0
      ∧ ps.getD j 0 ≤ (fdr_bh_correction ps).getD j 0
      ∧ (bonferroni ps).getD j 0 ≤ 1
      ∧ (holm_correction ps).getD j 0 ≤ 1
      ∧ (fdr_bh_correction ps).getD j 0 ≤ 1
      ∧ (fdr_bh_correction ps).getD j 0 ≤ (bonferroni ps).getD j 0 := by
  intro j hj
  obtain ⟨idx, hidx, hpj⟩ := argsortIdx_surj ps hj
  have hidxm : idx < ps.length := by rw [← argsortIdx_length ps]; exact hidx
  have hjperm : j < (argsortIdx ps).length := by rw [argsortIdx_length]; exact hj
  have hspj : (sortedP ps).getD idx 0 = ps.getD j 0 := by
    rw [sortedP_getD ps hidxm, hpj]
  have hunsort_holm : (holm_correction ps).getD j 0
      = (cummax (holmScaled ps.length (sortedP ps))).getD idx 0 := by
    rw [holm_correction, ← hpj]
    exact unsortBy_getD _ _ (argsortIdx_nodup ps) hidx (by rw [hpj]; exact hjperm)
  have hunsort_fdr : (fdr_bh_correction ps).getD j 0
      = (suffMin (fdrScaled ps.length (sortedP ps))).getD idx 0 := by
    rw [fdr_bh_correction, ← hpj]
    exact unsortBy_getD _ _ (argsortIdx_nodup ps) hidx (by rw [hpj]; exact hjperm)
  have hbonf : (bonferroni ps).getD j 0 = min (ps.getD j 0 * (ps.length : ℚ)) 1 := by
    rw [bonferroni, List.getD_eq_getElem _ _ (by simpa using hj),
      List.getD_eq_getElem _ _ hj]
    simp
  have hbj := hps (ps.getD j 0) (by
    rw [List.getD_eq_getElem _ _ hj]
    exact List.getElem_mem _)
  have hfdr_le_scaled : (suffMin (fdrScaled ps.length (sortedP ps))).getD idx 0
      ≤ (fdrScaled ps.length (sortedP ps)).getD idx 0 :=
    suffMin_getD_le _ idx idx (le_refl idx)
      (by rw [fdrScaled_length, sortedP_length]; exact hidxm)
  have hfsc : (fdrScaled ps.length (sortedP ps)).getD idx 0
      = min ((sortedP ps).getD idx 0 * (ps.length : ℚ) / ((idx + 1 : ℕ) : ℚ)) 1 :=
    enum_map_getD _ _ (by rw [sortedP_length]; exact hidxm)
  refine ⟨?_, ?_, ?_, ?_, ?_, ?_⟩
  · rw [hunsort_holm, ← hspj]
    exact holm_sorted_ge ps hps hidxm
  · rw [hunsort_fdr, ← hspj]
    exact fdr_sorted_ge ps hps hidxm
  · rw [hbonf]
    exact min_le_right _ _
  · rw [hunsort_holm]
    refine cummax_getD_le _ 1 ?_ ?_
    · intro x hx
      rw [holmScaled, List.mem_map] at hx
      obtain ⟨q, _, rfl⟩ := hx
      exact min_le_right _ _
    · rw [holmScaled_length, sortedP_length]
      exact hidxm
  · rw [hunsort_fdr]
    refine le_trans hfdr_le_scaled ?_
    rw [hfsc]
    exact min_le_right _ _
  · rw [hunsort_fdr, hbonf]
    refine le_trans hfdr_le_scaled ?_
    rw [hfsc, hspj]
    refine min_le_min ?_ (le_refl 1)
    have h0 : 0 ≤ ps.getD j 0 * (ps.length : ℚ) :=
      mul_nonneg hbj.1 (Nat.cast_nonneg _)
    refine div_le_self h0 ?_
    exact_mod_cast Nat.succ_le_succ (Nat.zero_le idx)

/-- C5, witness: the corrections evaluated on the concrete p-value list
`[1/25, 1/50, 3/100]` at position 0. -/
theorem C5_corrections_witness :
    (∀ p ∈ ([1/25, 1/50, 3/100] : List ℚ), 0 ≤ p ∧ p ≤ 1) ∧
      (([1/25, 1/50, 3/100] : List ℚ).getD 0 0
          ≤ (holm_correction [1/25, 1/50, 3/100]).getD 0 0
        ∧ ([1/25, 1/50, 3/100] : List ℚ).getD 0 0
          ≤ (fdr_bh_correction [1/25, 1/50, 3/100]).getD 0 0
        ∧ (bonferroni [1/25, 1/50, 3/100]).getD 0 0 ≤ 1
        ∧ (holm_correction [1/25, 1/50, 3/100]).getD 0 0 ≤ 1
        ∧ (fdr_bh_correction [1/25, 1/50, 3/100]).getD 0 0 ≤ 1
        ∧ (fdr_bh_correction [1/25, 1/50, 3/100]).getD 0 0
          ≤ (bonferroni [1/25, 1/50, 3/100]).getD 0 0) :=
  ⟨by intro p hp; fin_cases hp <;> norm_num,
    C5_corrections [1/25, 1/50, 3/100]
      (by intro p hp; fin_cases hp <;> norm_num) 0 (by norm_num)⟩

/-! ## Shannon entropy (C6)
Embedding of the word-level part of `calculate_entropy` in
`src/src/information_theory.py` (lines 187-256).  A text is represented by
its token list `text.lower().split()`; the char-level computation is the same
function applied to the character tokens. -/

/-- Probability of token `w` in `ws` by frequency counting
(`count / total_words`, line 221). -/
noncomputable def wordProb (ws : List String) (w : String) : ℝ :=
  (ws.count w : ℝ) / (ws.length : ℝ)

/-- Word-level Shannon entropy (line 222):
`-sum p * log2(p + 1e-10)` over the distinct tokens (the `Counter` keys).
The `1e-10` smoothing sits *inside* the logarithm. -/
noncomputable def word_entropy (ws : List String) : ℝ :=
  -∑ w ∈ ws.toFinset, wordProb ws w * Real.logb 2 (wordProb ws w + 1e-10)

/-- Maximum possible entropy (line 230): `log2` of the vocabulary size. -/
noncomputable def max_word_entropy (ws : List String) : ℝ :=
  Real.logb 2 (ws.toFinset.card : ℝ)

/-- Normalized entropy with the divide-by-zero guard (line 233). -/
noncomputable def normalized_entropy (ws : List String) : ℝ :=
  if 0 < max_word_entropy ws then word_entropy ws / max_word_entropy ws else 0

/-- Redundancy (line 236): `1 - normalized_entropy`. -/
noncomputable def redundancy (ws : List String) : ℝ :=
  1 - normalized_entropy ws

/-- C6, counterexample.  `calculate_entropy` of the single-token text
`"hello"` returns a *negative* Shannon entropy, `-log2(1 + 1e-10) ≈
-1.44e-10`: the `+1e-10` smoothing inside the logarithm pushes the probability
argument above 1, so the claim's unconditional non-negativity fails (a test
`entropy >= 0` fails on any single-repeated-token text). -/
theorem C6_counterexample : word_entropy ["hello"] < 0 := by
  have hc : (["hello"] : List String).count "hello" = 1 := by decide
  have hfin : (["hello"] : List String).toFinset = {"hello"} := by decide
  have hlen : (["hello"] : List String).length = 1 := rfl
  rw [word_entropy, hfin, Finset.sum_singleton, wordProb, hc, hlen]
  norm_num
  exact Real.logb_pos (by norm_num) (by norm_num)

/-! ### Entropy bounds -/

/-- With at least two distinct tokens (and at most `10^9` tokens, so the
`1e-10` smoothing cannot push any probability above 1) every summand of the
entropy is non-negative. -/
theorem word_entropy_nonneg (ws : List String) (hlen : ws.length ≤ 10^9)
    (hk : 2 ≤ ws.toFinset.card) : 0 ≤ word_entropy ws := by
  rw [word_entropy, neg_nonneg]
  apply Finset.sum_nonpos
  intro w hw
  have hwmem : w ∈ ws := List.mem_toFinset.mp hw
  have htpos : 0 < ws.length := List.length_pos.mpr (List.ne_nil_of_mem hwmem)
  have htpos' : (0:ℝ) < ws.length := by exact_mod_cast htpos
  have hcpos : 0 < ws.count w := List.count_pos_iff.mpr hwmem
  have hclt : ws.count w < ws.length := by
    by_contra h
    push_neg at h
    have heq : ws.count w = ws.length := le_antisymm (List.count_le_length _ _) h
    have hall : ∀ b ∈ ws, w = b := List.count_eq_length.mp heq
    have hsub : ws.toFinset ⊆ {w} := by
      intro x hx
      have := hall x (List.mem_toFinset.mp hx)
      simp [← this]
    have hcard : ws.toFinset.card ≤ 1 :=
      le_trans (Finset.card_le_card hsub) (by simp)
    omega
  have hp_pos : 0 < wordProb ws w :=
    div_pos (by exact_mod_cast hcpos) htpos'
  have hp_le : wordProb ws w + 1e-10 ≤ 1 := by
    rw [wordProb, div_add' _ _ _ (ne_of_gt htpos'), div_le_one htpos']
    have h1 : (ws.count w : ℝ) ≤ (ws.length : ℝ) - 1 := by
      have h2 : ws.count w + 1 ≤ ws.length := hclt
      have := (Nat.cast_le (α := ℝ)).mpr h2
      push_cast at this
      linarith
    have ht9 : (ws.length : ℝ) ≤ 10^9 := by exact_mod_cast hlen
    nlinarith
  have hlog : Real.logb 2 (wordProb ws w + 1e-10) ≤ 0 :=
    Real.logb_nonpos (by norm_num) (by positivity) hp_le
  exact mul_nonpos_of_nonneg_of_nonpos hp_pos.le hlog

/-- Jensen bound: the (smoothed) entropy never exceeds `log2` of the
vocabulary size. -/
theorem word_entropy_le_max (ws : List String) (hne : ws ≠ []) :
    word_entropy ws ≤ max_word_entropy ws := by
  have htpos : 0 < ws.length := List.length_pos.mpr hne
  have htpos' : (0:ℝ) < ws.length := by exact_mod_cast htpos
  have hKne : ws.toFinset.Nonempty := by
    obtain ⟨x, hx⟩ := List.exists_mem_of_ne_nil ws hne
    exact ⟨x, List.mem_toFinset.mpr hx⟩
  have hlog2 : (0:ℝ) < Real.log 2 := Real.log_pos (by norm_num)
  have hsum1 : ∑ w ∈ ws.toFinset, wordProb ws w = 1 := by
    have hnat : ∑ w ∈ ws.toFinset, ((ws.count w : ℝ)) = (ws.length : ℝ) := by
      rw [← Nat.cast_sum]
      exact_mod_cast congrArg Nat.cast (List.sum_toFinset_count_eq_length ws)
    simp only [wordProb, ← Finset.sum_div, hnat]
    exact div_self (ne_of_gt htpos')
  have hp_pos : ∀ w ∈ ws.toFinset, 0 < wordProb ws w := fun w hw =>
    div_pos (by exact_mod_cast List.count_pos_iff.mpr (List.mem_toFinset.mp hw))
      htpos'
  have hjensen : ∑ w ∈ ws.toFinset,
        wordProb ws w • Real.log ((wordProb ws w + 1e-10)⁻¹)
      ≤ Real.log (∑ w ∈ ws.toFinset,
          wordProb ws w • (wordProb ws w + 1e-10)⁻¹) := by
    refine (strictConcaveOn_log_Ioi.concaveOn).le_map_sum
      (fun w hw => (hp_pos w hw).le) hsum1 ?_
    intro w hw
    have hp := hp_pos w hw
    have : (0:ℝ) < (wordProb ws w + 1e-10)⁻¹ := by positivity
    simpa [Set.mem_Ioi]
  have harg_le : ∑ w ∈ ws.toFinset, wordProb ws w * (wordProb ws w + 1e-10)⁻¹
      ≤ (ws.toFinset.card : ℝ) := by
    have hterm : ∀ w ∈ ws.toFinset,
        wordProb ws w * (wordProb ws w + 1e-10)⁻¹ ≤ 1 := by
      intro w hw
      have hp := hp_pos w hw
      rw [← div_eq_mul_inv, div_le_one (by positivity)]
      linarith
    calc ∑ w ∈ ws.toFinset, wordProb ws w * (wordProb ws w + 1e-10)⁻¹
        ≤ ∑ _w ∈ ws.toFinset, (1:ℝ) := Finset.sum_le_sum hterm
    _ = (ws.toFinset.card : ℝ) := by simp
  have harg_pos : 0 < ∑ w ∈ ws.toFinset,
      wordProb ws w * (wordProb ws w + 1e-10)⁻¹ := by
    refine Finset.sum_pos ?_ hKne
    intro w hw
    have hp := hp_pos w hw
    positivity
  have hlog_le : Real.log (∑ w ∈ ws.toFinset,
        wordProb ws w * (wordProb ws w + 1e-10)⁻¹)
      ≤ Real.log (ws.toFinset.card : ℝ) := Real.log_le_log harg_pos harg_le
  have hwe : word_entropy ws = (∑ w ∈ ws.toFinset,
      wordProb ws w * Real.log ((wordProb ws w + 1e-10)⁻¹)) / Real.log 2 := by
    rw [word_entropy, Finset.sum_div, ← Finset.sum_neg_distrib]
    refine Finset.sum_congr rfl ?_
    intro w _
    rw [Real.log_inv, Real.logb]
    ring
  have hmax : max_word_entropy ws
      = Real.log (ws.toFinset.card : ℝ) / Real.log 2 := by
    rw [max_word_entropy, Real.logb]
  rw [hwe, hmax, div_le_div_iff_of_pos_right hlog2]
  calc ∑ w ∈ ws.toFinset, wordProb ws w * Real.log ((wordProb ws w + 1e-10)⁻¹)
      = ∑ w ∈ ws.toFinset, wordProb ws w • Real.log ((wordProb ws w + 1e-10)⁻¹) := by
        simp [smul_eq_mul]
  _ ≤ Real.log (∑ w ∈ ws.toFinset, wordProb ws w • (wordProb ws w + 1e-10)⁻¹) :=
        hjensen
  _ = Real.log (∑ w ∈ ws.toFinset, wordProb ws w * (wordProb ws w + 1e-10)⁻¹) := by
        simp [smul_eq_mul]
  _ ≤ Real.log (ws.toFinset.card : ℝ) := hlog_le

/-- On a text whose vocabulary has a single word the entropy is exactly
`-log2(1 + 1e-10)`. -/
theorem word_entropy_of_card_one (ws : List String) (hne : ws ≠ [])
    (h1 : ws.toFinset.card = 1) :
    word_entropy ws = -Real.logb 2 (1 + 1e-10) := by
  obtain ⟨w, hw⟩ := Finset.card_eq_one.mp h1
  have hall : ∀ b ∈ ws, w = b := by
    intro b hb
    have hmem : b ∈ ws.toFinset := List.mem_toFinset.mpr hb
    rw [hw] at hmem
    exact (Finset.mem_singleton.mp hmem).symm
  have hcount : ws.count w = ws.length := List.count_eq_length.mpr hall
  have htpos : (0:ℝ) < ws.length := by
    exact_mod_cast List.length_pos.mpr hne
  rw [word_entropy, hw, Finset.sum_singleton, wordProb, hcount,
    div_self (ne_of_gt htpos), one_mul]

/-- Numeric bound for the degenerate entropy value. -/
theorem logb_one_add_eps_small : Real.logb 2 (1 + 1e-10) ≤ 1e-9 := by
  have hlog2 : (0:ℝ) < Real.log 2 := Real.log_pos (by norm_num)
  rw [Real.logb, div_le_iff₀ hlog2]
  have h1 : Real.log (1 + 1e-10) ≤ 1e-10 := by
    have h2 := Real.log_le_sub_one_of_pos (by norm_num : (0:ℝ) < 1 + 1e-10)
    linarith
  linarith [Real.log_two_gt_d9]

/-- The degenerate entropy value is the negation of a non-negative number. -/
theorem logb_one_add_eps_nonneg : 0 ≤ Real.logb 2 (1 + 1e-10) :=
  Real.logb_nonneg (by norm_num) (by norm_num)

theorem toFinset_replicate_eq (n : ℕ) (hn : n ≠ 0) (w : String) :
    (List.replicate n w).toFinset = {w} := by
  ext x
  simp [List.mem_replicate, hn]

/-- C6, amended.  For every non-empty text of at most `10^9` tokens,
`calculate_entropy` returns a normalized entropy in `[0,1]`, the Shannon
entropy is bounded below by `-log2(1 + 1e-10) ≈ -1.44e-10` (and is
non-negative whenever the text has at least two distinct tokens — but *not*
in general: see the counterexample), and for a text consisting of a single
repeated token it returns entropy exactly `-log2(1 + 1e-10)` (approximately
0, within `1e-9` of it), normalized entropy exactly 0 (the `max_entropy == 0`
divide-by-zero guard), and redundancy exactly 1. -/
theorem C6_entropy_amended :
    ∀ ws : List String, ws ≠ [] → ws.length ≤ 10^9 →
      (0 ≤ normalized_entropy ws ∧ normalized_entropy ws ≤ 1)
      ∧ (2 ≤ ws.toFinset.card → 0 ≤ word_entropy ws)
      ∧ -Real.logb 2 (1 + 1e-10) ≤ word_entropy ws
      ∧ (∀ (w : String) (n : ℕ), ws = List.replicate n w →
          word_entropy ws = -Real.logb 2 (1 + 1e-10)
          ∧ |word_entropy ws| ≤ 1e-9
          ∧ normalized_entropy ws = 0 ∧ redundancy ws = 1) := by
  intro ws hne hlen
  have hcard_pos : 0 < ws.toFinset.card := by
    obtain ⟨x, hx⟩ := List.exists_mem_of_ne_nil ws hne
    exact Finset.card_pos.mpr ⟨x, List.mem_toFinset.mpr hx⟩
  have hcase : ws.toFinset.card = 1 ∨ 2 ≤ ws.toFinset.card := by omega
  have hnorm_card_one : ws.toFinset.card = 1 → normalized_entropy ws = 0 := by
    intro h1
    have hmax : max_word_entropy ws = 0 := by
      rw [max_word_entropy, h1]
      simp
    rw [normalized_entropy, hmax]
    simp
  refine ⟨?_, fun hk => word_entropy_nonneg ws hlen hk, ?_, ?_⟩
  · rcases hcase with h1 | h2
    · rw [hnorm_card_one h1]
      norm_num
    · have hH0 : 0 ≤ word_entropy ws := word_entropy_nonneg ws hlen h2
      have hHle : word_entropy ws ≤ max_word_entropy ws :=
        word_entropy_le_max ws hne
      have hmaxpos : 0 < max_word_entropy ws := by
        rw [max_word_entropy]
        refine Real.logb_pos (by norm_num) ?_
        exact_mod_cast h2
      rw [normalized_entropy, if_pos hmaxpos]
      exact ⟨div_nonneg hH0 hmaxpos.le, (div_le_one hmaxpos).mpr hHle⟩
  · rcases hcase with h1 | h2
    · rw [word_entropy_of_card_one ws hne h1]
    · have hH0 : 0 ≤ word_entropy ws := word_entropy_nonneg ws hlen h2
      linarith [logb_one_add_eps_nonneg]
  · rintro w n rfl
    have hn : n ≠ 0 := by
      intro h
      rw [h] at hne
      exact hne rfl
    have h1 : (List.replicate n w).toFinset.card = 1 := by
      rw [toFinset_replicate_eq n hn w]
      simp
    have hent := word_entropy_of_card_one _ hne h1
    refine ⟨hent, ?_, hnorm_card_one h1, ?_⟩
    · rw [hent, abs_neg, abs_of_nonneg logb_one_add_eps_nonneg]
      exact logb_one_add_eps_small
    · rw [redundancy, hnorm_card_one h1]
      norm_num

/-- C6, witness: the single-token text `["a"]`. -/
theorem C6_entropy_amended_witness :
    (["a"] : List String) ≠ [] ∧ (["a"] : List String).length ≤ 10^9 ∧
      word_entropy ["a"] = -Real.logb 2 (1 + 1e-10) ∧
      |word_entropy ["a"]| ≤ 1e-9 ∧
      normalized_entropy ["a"] = 0 ∧ redundancy ["a"] = 1 := by
  have h := (C6_entropy_amended ["a"] (by decide) (by norm_num)).2.2.2 "a" 1 rfl
  exact ⟨by decide, by norm_num, h.1, h.2.1, h.2.2.1, h.2.2.2⟩

/-! ## Mutual information (C3)
Embedding of `calculate_mutual_information` in `src/src/information_theory.py`
(lines 262-364).  Texts are represented by their token lists
`text.lower().split()`; the theorems are stated over non-degenerate token
lists (the Python code divides by the token count, so an empty `text1` with a
non-empty `text2` raises `ZeroDivisionError` — outside every claim here). -/

/-- Shared vocabulary (line 297): the union of the two word sets. -/
def miVocab (w1 w2 : List String) : Finset String :=
  w1.toFinset ∪ w2.toFinset

/-- Probability clipping (`np.clip(p, 1e-10, 1)`, lines 311-313). -/
noncomputable def clipProb (x : ℝ) : ℝ := min 1 (max 1e-10 x)

/-- Probability of `w` under the word distribution of `ws`, over a shared
vocabulary (`counter.get(w, 0) / total`, lines 307-308, after clipping). -/
noncomputable def miProb (ws : List String) (w : String) : ℝ :=
  clipProb ((ws.count w : ℝ) / (ws.length : ℝ))

/-- Marginal entropy over the shared vocabulary (lines 315-316). -/
noncomputable def miEntropy (ws : List String) (vocab : Finset String) : ℝ :=
  -∑ w ∈ vocab, miProb ws w * Real.logb 2 (miProb ws w)

/-- Jaccard overlap ratio of the two vocabularies (lines 324-325):
`len(overlap) / len(vocab) if vocab else 0`. -/
noncomputable def overlapRatio (w1 w2 : List String) : ℝ :=
  if (miVocab w1 w2).card = 0 then 0
  else ((w1.toFinset ∩ w2.toFinset).card : ℝ) / ((miVocab w1 w2).card : ℝ)

/-- Approximate joint entropy (line 330):
`H(X,Y) = H(X) + H(Y) * (1 - overlap_ratio)`. -/
noncomputable def miJointEntropy (w1 w2 : List String) : ℝ :=
  miEntropy w1 (miVocab w1 w2)
    + miEntropy w2 (miVocab w1 w2) * (1 - overlapRatio w1 w2)

/-- Mutual information (lines 333-334): `max(0, H(X) + H(Y) - H(X,Y))`. -/
noncomputable def mutual_information (w1 w2 : List String) : ℝ :=
  max 0 (miEntropy w1 (miVocab w1 w2) + miEntropy w2 (miVocab w1 w2)
    - miJointEntropy w1 w2)

/-- Normalized mutual information (lines 337-339):
`min(1, MI / normalizer)` with `normalizer = sqrt(H(X)*H(Y))` when both
marginal entropies are positive, else 1. -/
noncomputable def normalized_mi (w1 w2 : List String) : ℝ :=
  let HX := miEntropy w1 (miVocab w1 w2)
  let HY := miEntropy w2 (miVocab w1 w2)
  let normalizer := if 0 < HX ∧ 0 < HY then Real.sqrt (HX * HY) else 1
  min 1 (if 0 < normalizer then mutual_information w1 w2 / normalizer else 0)

/-- Information loss (line 342): `H(X) - MI`. -/
noncomputable def information_loss (w1 w2 : List String) : ℝ :=
  miEntropy w1 (miVocab w1 w2) - mutual_information w1 w2

theorem clipProb_of_bounds {x : ℝ} (h1 : 1e-10 ≤ x) (h2 : x ≤ 1) :
    clipProb x = x := by
  rw [clipProb, max_eq_right h1, min_eq_right h2]

theorem clipProb_zero : clipProb 0 = 1e-10 := by
  rw [clipProb, max_eq_left (by norm_num), min_eq_right (by norm_num)]

theorem miProb_pos (ws : List String) (w : String) : 0 < miProb ws w := by
  rw [miProb, clipProb]
  exact lt_min (by norm_num)
    (lt_of_lt_of_le (by norm_num : (0:ℝ) < 1e-10) (le_max_left _ _))

theorem miProb_le_one (ws : List String) (w : String) : miProb ws w ≤ 1 :=
  min_le_left _ _

/-- The clipped-probability entropy is non-negative: every probability lies
in `(0, 1]`, so every summand `-p*log2(p)` is non-negative. -/
theorem miEntropy_nonneg (ws : List String) (vocab : Finset String) :
    0 ≤ miEntropy ws vocab := by
  rw [miEntropy, neg_nonneg]
  apply Finset.sum_nonpos
  intro w _
  exact mul_nonpos_of_nonneg_of_nonpos (miProb_pos ws w).le
    (Real.logb_nonpos (by norm_num) (miProb_pos ws w).le (miProb_le_one ws w))

/-- The `H(X) + H(Y) - H(X,Y)` expression collapses to
`H(Y) * overlap_ratio`: the mutual information of the code depends on the
entropy of the *second* text only. -/
theorem mutual_information_eq (w1 w2 : List String) :
    mutual_information w1 w2
      = max 0 (miEntropy w2 (miVocab w1 w2) * overlapRatio w1 w2) := by
  rw [mutual_information, miJointEntropy]
  congr 1
  ring

theorem miVocab_comm (w1 w2 : List String) : miVocab w2 w1 = miVocab w1 w2 :=
  Finset.union_comm _ _

theorem overlapRatio_comm (w1 w2 : List String) :
    overlapRatio w2 w1 = overlapRatio w1 w2 := by
  rw [overlapRatio, overlapRatio, miVocab_comm, Finset.inter_comm]

/-- Helper: the two-token text `["a","b"]` has entropy exactly 1 over the
vocabulary `{"a","b"}`. -/
theorem miEntropy_ab_eq_one : miEntropy ["a", "b"] {"a", "b"} = 1 := by
  have hca : (["a", "b"] : List String).count "a" = 1 := by decide
  have hcb : (["a", "b"] : List String).count "b" = 1 := by decide
  have hpa : miProb ["a", "b"] "a" = 1/2 := by
    rw [miProb, hca]
    have harg : ((1:ℕ):ℝ) / (((["a", "b"] : List String).length : ℕ) : ℝ) = 1/2 := by
      norm_num
    rw [harg, clipProb_of_bounds (by norm_num) (by norm_num)]
  have hpb : miProb ["a", "b"] "b" = 1/2 := by
    rw [miProb, hcb]
    have harg : ((1:ℕ):ℝ) / (((["a", "b"] : List String).length : ℕ) : ℝ) = 1/2 := by
      norm_num
    rw [harg, clipProb_of_bounds (by norm_num) (by norm_num)]
  have hlog : Real.logb 2 (1/2 : ℝ) = -1 := by
    rw [show (1/2 : ℝ) = 2⁻¹ by norm_num, Real.logb_inv,
      Real.logb_self_eq_one (by norm_num)]
  rw [miEntropy, show ({"a", "b"} : Finset String) = insert "a" {"b"} from rfl,
    Finset.sum_insert (by decide), Finset.sum_singleton, hpa, hpb, hlog]
  norm_num

/-- Helper: the entropy of the one-token text `["a"]` over the vocabulary
`{"a","b"}` is the tiny smoothing artefact `1e-10 * log2(1e10)`, bounded by
`1/10`. -/
theorem miEntropy_a_le : miEntropy ["a"] {"a", "b"} ≤ 1/10 := by
  have hca : (["a"] : List String).count "a" = 1 := by decide
  have hcb : (["a"] : List String).count "b" = 0 := by decide
  have hpa : miProb ["a"] "a" = 1 := by
    rw [miProb, hca]
    have harg : ((1:ℕ):ℝ) / (((["a"] : List String).length : ℕ) : ℝ) = 1 := by
      norm_num
    rw [harg, clipProb_of_bounds (by norm_num) (by norm_num)]
  have hpb : miProb ["a"] "b" = 1e-10 := by
    rw [miProb, hcb]
    have harg : ((0:ℕ):ℝ) / (((["a"] : List String).length : ℕ) : ℝ) = 0 := by
      norm_num
    rw [harg, clipProb_zero]
  have hlogeps : Real.logb 2 (1e-10 : ℝ) = -Real.logb 2 (1e10 : ℝ) := by
    rw [show (1e-10 : ℝ) = (1e10 : ℝ)⁻¹ by norm_num, Real.logb_inv]
  have hbound : Real.logb 2 (1e10 : ℝ) < 34 := by
    rw [Real.logb_lt_iff_lt_rpow (by norm_num) (by norm_num)]
    rw [show ((34:ℝ)) = ((34:ℕ):ℝ) by norm_num, Real.rpow_natCast]
    norm_num
  rw [miEntropy, show ({"a", "b"} : Finset String) = insert "a" {"b"} from rfl,
    Finset.sum_insert (by decide), Finset.sum_singleton, hpa, hpb,
    Real.logb_one, hlogeps]
  nlinarith [hbound]

/-- C3, counterexample.  `calculate_mutual_information` is *not* symmetric:
its mutual information equals `H(text2) * overlap_ratio`, so for
`A = "a b"`, `B = "a"` it returns `MI(A,B) ≈ 1.7e-9` (the smoothing artefact)
but `MI(B,A) = 1/2` — a gap of more than `0.4` bits, far beyond floating
tolerance. -/
theorem C3_counterexample :
    mutual_information ["a", "b"] ["a"] + 2/5
      < mutual_information ["a"] ["a", "b"] := by
  have hv : miVocab ["a", "b"] ["a"] = {"a", "b"} := by decide
  have hv2 : miVocab ["a"] ["a", "b"] = {"a", "b"} := by decide
  have hr1 : overlapRatio ["a", "b"] ["a"] = 1/2 := by
    rw [overlapRatio, if_neg (by decide)]
    have h1 : ((["a", "b"] : List String).toFinset ∩
        (["a"] : List String).toFinset).card = 1 := by decide
    have h2 : (miVocab ["a", "b"] ["a"]).card = 2 := by decide
    rw [h1, h2]
    norm_num
  have hr2 : overlapRatio ["a"] ["a", "b"] = 1/2 := by
    rw [overlapRatio_comm]
    exact hr1
  have hH0 : 0 ≤ miEntropy ["a"] {"a", "b"} := miEntropy_nonneg _ _
  have h1 : mutual_information ["a", "b"] ["a"] ≤ 1/20 := by
    rw [mutual_information_eq, hv, hr1,
      max_eq_right (by nlinarith [miEntropy_a_le])]
    nlinarith [miEntropy_a_le]
  have h2 : mutual_information ["a"] ["a", "b"] = 1/2 := by
    rw [mutual_information_eq, hv2, miEntropy_ab_eq_one, hr2]
    norm_num
  linarith

/-- The overlap ratio is a quotient of non-negative cardinalities (or the
0 of the empty-vocabulary guard). -/
theorem overlapRatio_nonneg (w1 w2 : List String) : 0 ≤ overlapRatio w1 w2 := by
  rw [overlapRatio]
  split_ifs
  · exact le_refl 0
  · positivity

/-- C3, amended.  The mutual information of the code is always non-negative
(`max(0, ·)`); since it collapses to `H(text2) * overlap_ratio`, it is
symmetric exactly when the vocabulary overlap ratio is 0 (disjoint word sets)
or the two marginal entropies over the shared vocabulary coincide (in
particular for identical texts) — not for every pair; and `MI(A,A)` yields
normalized MI exactly 1 for every text with positive entropy. -/
theorem C3_mi_amended :
    (∀ w1 w2 : List String, 0 ≤ mutual_information w1 w2)
    ∧ (∀ w1 w2 : List String,
        mutual_information w1 w2 = mutual_information w2 w1 ↔
          (overlapRatio w1 w2 = 0 ∨
            miEntropy w1 (miVocab w1 w2) = miEntropy w2 (miVocab w1 w2)))
    ∧ (∀ ws : List String, 0 < miEntropy ws (miVocab ws ws) →
        normalized_mi ws ws = 1) := by
  refine ⟨fun w1 w2 => le_max_left 0 _, ?_, ?_⟩
  · intro w1 w2
    rw [mutual_information_eq w1 w2, mutual_information_eq w2 w1,
      miVocab_comm w1 w2, overlapRatio_comm w1 w2]
    have h1 : 0 ≤ miEntropy w1 (miVocab w1 w2) := miEntropy_nonneg _ _
    have h2 : 0 ≤ miEntropy w2 (miVocab w1 w2) := miEntropy_nonneg _ _
    have hr : 0 ≤ overlapRatio w1 w2 := overlapRatio_nonneg w1 w2
    rw [max_eq_right (mul_nonneg h2 hr), max_eq_right (mul_nonneg h1 hr)]
    constructor
    · intro h
      rcases eq_or_lt_of_le hr with hr0 | hrpos
      · exact Or.inl hr0.symm
      · exact Or.inr (mul_right_cancel₀ (ne_of_gt hrpos) h).symm
    · rintro (hr0 | hEq)
      · rw [hr0, mul_zero, mul_zero]
      · rw [hEq]
  · intro ws hH
    have hvocab : miVocab ws ws = ws.toFinset := by
      rw [miVocab, Finset.union_self]
    have hcard : (miVocab ws ws).card ≠ 0 := by
      intro h0
      have hempty : miVocab ws ws = ∅ := Finset.card_eq_zero.mp h0
      rw [hempty] at hH
      simp [miEntropy] at hH
    have hr : overlapRatio ws ws = 1 := by
      rw [overlapRatio, if_neg hcard, Finset.inter_self]
      rw [show ws.toFinset = miVocab ws ws from hvocab.symm]
      exact div_self (by exact_mod_cast hcard)
    have hMI : mutual_information ws ws = miEntropy ws (miVocab ws ws) := by
      rw [mutual_information_eq, hr, mul_one,
        max_eq_right (miEntropy_nonneg _ _)]
    simp only [normalized_mi]
    have hnorm : (if 0 < miEntropy ws (miVocab ws ws) ∧ 0 < miEntropy ws (miVocab ws ws)
        then Real.sqrt (miEntropy ws (miVocab ws ws) * miEntropy ws (miVocab ws ws))
        else 1) = miEntropy ws (miVocab ws ws) := by
      rw [if_pos ⟨hH, hH⟩, Real.sqrt_mul_self hH.le]
    rw [hnorm, if_pos hH, hMI, div_self (ne_of_gt hH)]
    exact min_self 1

/-- C3, witness for the amended theorem: the text `["a","b"]` has positive
entropy and normalized self-MI exactly 1. -/
theorem C3_mi_amended_witness :
    0 < miEntropy ["a", "b"] (miVocab ["a", "b"] ["a", "b"]) ∧
      normalized_mi ["a", "b"] ["a", "b"] = 1 := by
  have hv : miVocab ["a", "b"] ["a", "b"] = {"a", "b"} := by decide
  have hpos : 0 < miEntropy ["a", "b"] (miVocab ["a", "b"] ["a", "b"]) := by
    rw [hv, miEntropy_ab_eq_one]
    norm_num
  exact ⟨hpos, C3_mi_amended.2.2 ["a", "b"] hpos⟩

end SpecProof
